import Mathlib

/-!
Verification development for the PDF table extractor
(`src/parser/pdf_parser.py` of the docling project).  The definitions below
are a shallow embedding of the reconciliation logic of
`PDFParser.parse_tables`: the date parsing helpers, the regex-based cell
classifiers, the per-row reconciliation of the dataframe path, the
fallback raw-matrix path, and the table/document level control flow.
-/

namespace PdfParser

/-- Whitespace characters as treated by Python's `str.strip` and regex `\s`. -/
def isPySpace (c : Char) : Bool :=
  c = ' ' || c = '\t' || c = '\n' || c = '\r' || c = '\x0b' || c = '\x0c'

/-- Model of Python `str.strip()` on the character list. -/
def trimChars (cs : List Char) : List Char :=
  ((cs.dropWhile isPySpace).reverse.dropWhile isPySpace).reverse

/-- Model of Python `str.strip()`. -/
def strip (s : String) : String := ⟨trimChars s.data⟩

def digitVal (c : Char) : Nat := c.toNat - '0'.toNat

/-- Nonempty decimal digit strings (the value folds of the strptime
fields and of `parseIntPy` on plain digits). -/
def parseNatDigits (cs : List Char) : Option Nat :=
  if !cs.isEmpty && cs.all Char.isDigit then
    some (cs.foldl (fun a c => 10 * a + digitVal c) 0)
  else none

/-- The digit tail of a Python `int` literal after its first digit: further
digits with single underscores allowed between digits only (the Boolean
argument records that the previous character was an underscore, so a digit
must follow). -/
def parseDigitsU : Nat → Bool → List Char → Option Nat
  | acc, afterU, [] => if afterU then none else some acc
  | acc, afterU, c :: rest =>
    if c.isDigit then parseDigitsU (10 * acc + digitVal c) false rest
    else if c = '_' && !afterU then parseDigitsU acc true rest
    else none

/-- Model of Python `int(s)` on a string: surrounding whitespace is
stripped, then an optional single sign, then digits with single
underscores allowed between digits. -/
def parsePyInt (cs : List Char) : Option Int :=
  match trimChars cs with
  | '-' :: c :: rest =>
    if c.isDigit then (parseDigitsU (digitVal c) false rest).map fun n => -(n : Int)
    else none
  | '+' :: c :: rest =>
    if c.isDigit then (parseDigitsU (digitVal c) false rest).map fun n => (n : Int)
    else none
  | c :: rest =>
    if c.isDigit then (parseDigitsU (digitVal c) false rest).map fun n => (n : Int)
    else none
  | [] => none

/-- Decimal digits of `n / 10 ^ (n - fuel)`-style peeling with explicit
fuel (`fuel ≥` the digit count makes it the full decimal expansion). -/
def natDecAux : Nat → Nat → List Char
  | 0, _ => []
  | fuel + 1, n =>
    if n = 0 then [] else natDecAux fuel (n / 10) ++ [Nat.digitChar (n % 10)]

/-- The decimal digits of a natural number, unpadded (Python `str`, and
glibc `strftime("%Y")`, which prints years below 1000 without padding). -/
def natDec (n : Nat) : List Char :=
  if n = 0 then ['0'] else natDecAux n n

/-- Model of Python `f"{n:02d}"` for `n ≤ 99`. -/
def pad2 (n : Nat) : String :=
  ⟨[Nat.digitChar (n / 10 % 10), Nat.digitChar (n % 10)]⟩

/-- Model of Python `f"{n:04d}"` for `0 ≤ n ≤ 9999`. -/
def pad4 (n : Nat) : String :=
  ⟨[Nat.digitChar (n / 1000 % 10), Nat.digitChar (n / 100 % 10),
    Nat.digitChar (n / 10 % 10), Nat.digitChar (n % 10)]⟩

/-- Python `f"{v:0wd}"` on an `int`: decimal digits zero-padded on the
left to the field width, with a leading minus sign (counted in the width)
for negative values; a value wider than the field prints in full. -/
def pyFmtW (w : Nat) (v : Int) : String :=
  if v < 0 then
    ⟨'-' :: (List.replicate (w - 1 - (natDec v.natAbs).length) '0'
      ++ natDec v.natAbs)⟩
  else
    ⟨List.replicate (w - (natDec v.natAbs).length) '0' ++ natDec v.natAbs⟩

/-- The f-string normalization of the `D:` branch:
`f"{m:02d}-{d:02d}-{y:04d} {hh:02d}:{mm:02d}"` (values come from Python
`int` on string slices, so they may be negative). -/
def fmtOutD (m d y hh mm : Int) : String :=
  pyFmtW 2 m ++ "-" ++ pyFmtW 2 d ++ "-" ++ pyFmtW 4 y ++ " " ++
    pyFmtW 2 hh ++ ":" ++ pyFmtW 2 mm

/-- `dt.strftime(f"%m-%d-%Y {hour:02d}:{minute:02d}")` on glibc: month and
day zero-padded to two digits by `%m`/`%d`, the year printed by `%Y`
without padding, the time part f-string formatted from the in-range
`dt.hour`/`dt.minute`. -/
def fmtOut (m d y hh mi : Nat) : String :=
  pad2 m ++ "-" ++ pad2 d ++ "-" ++ ⟨natDec y⟩ ++ " " ++ pad2 hh ++ ":" ++ pad2 mi

/-! ### strptime model

`_parse_pdf_date` and `_normalize_and_combine_date_field` call
`datetime.strptime` with a fixed list of formats.  We model the format
directives that occur in those strings (`%Y %m %d %H %M %S %B %I %p`,
literal characters, and whitespace, which `_strptime` matches as `\s+`).
Numeric directives accept one up to a maximal number of digits and are
range-checked exactly as `_strptime`/the `datetime` constructor do. -/

structure DT where
  year : Nat := 1900
  month : Nat := 1
  day : Nat := 1
  hour : Nat := 0
  minute : Nat := 0
  second : Nat := 0
  deriving Repr, DecidableEq

inductive Dir
  | lit (c : Char)
  | sp
  | Y | Mo | D | H | Mi | S | B | I | P
  deriving Repr, DecidableEq

structure PState where
  dt : DT := {}
  hour12 : Option Nat := none
  pm : Option Bool := none
  deriving Repr, DecidableEq

/-- Take at most `k` leading decimal digits (greedy, as the `\d{1,k}`
patterns used by `_strptime`; a following directive is never a digit, so
maximal munch agrees with the regex). -/
def splitDigitsMax : Nat → List Char → List Char × List Char
  | 0, cs => ([], cs)
  | k + 1, c :: cs =>
    if c.isDigit then
      let p := splitDigitsMax k cs
      (c :: p.1, p.2)
    else ([], c :: cs)
  | _ + 1, [] => ([], [])

/-- A numeric strptime field: up to `maxd` digits, value in `[lo, hi]`. -/
def numField (lo hi maxd : Nat) (cs : List Char) : Option (Nat × List Char) :=
  let p := splitDigitsMax maxd cs
  if p.1.isEmpty then none
  else
    let v := p.1.foldl (fun a c => 10 * a + digitVal c) 0
    if lo ≤ v ∧ v ≤ hi then some (v, p.2) else none

/-- `%Y`: exactly four digits (CPython's `TimeRE` uses `\d\d\d\d`). -/
def numFieldY (cs : List Char) : Option (Nat × List Char) :=
  let p := splitDigitsMax 4 cs
  if p.1.length = 4 then
    some (p.1.foldl (fun a c => 10 * a + digitVal c) 0, p.2)
  else none

def monthNames : List (List Char × Nat) :=
  [("january".data, 1), ("february".data, 2), ("march".data, 3),
   ("april".data, 4), ("may".data, 5), ("june".data, 6),
   ("july".data, 7), ("august".data, 8), ("september".data, 9),
   ("october".data, 10), ("november".data, 11), ("december".data, 12)]

/-- `%B`: a full English month name, case-insensitively. -/
def matchMonthName (cs : List Char) : Option (Nat × List Char) :=
  monthNames.findSome? fun p =>
    if (cs.take p.1.length).map Char.toLower = p.1 then
      some (p.2, cs.drop p.1.length)
    else none

def parseDirs : List Dir → List Char → PState → Option PState
  | [], cs, st => if cs.isEmpty then some st else none
  | d :: ds, cs, st =>
    match d with
    | .lit c =>
      match cs with
      | c2 :: rest => if c2 = c then parseDirs ds rest st else none
      | [] => none
    | .sp =>
      match cs with
      | c :: rest =>
        if isPySpace c then parseDirs ds (rest.dropWhile isPySpace) st else none
      | [] => none
    | .Y => do
      let p ← numFieldY cs
      parseDirs ds p.2 { st with dt := { st.dt with year := p.1 } }
    | .Mo => do
      let p ← numField 1 12 2 cs
      parseDirs ds p.2 { st with dt := { st.dt with month := p.1 } }
    | .D => do
      let p ← numField 1 31 2 cs
      parseDirs ds p.2 { st with dt := { st.dt with day := p.1 } }
    | .H => do
      let p ← numField 0 23 2 cs
      parseDirs ds p.2 { st with dt := { st.dt with hour := p.1 } }
    | .Mi => do
      let p ← numField 0 59 2 cs
      parseDirs ds p.2 { st with dt := { st.dt with minute := p.1 } }
    | .S => do
      let p ← numField 0 61 2 cs
      parseDirs ds p.2 { st with dt := { st.dt with second := p.1 } }
    | .B => do
      let p ← matchMonthName cs
      parseDirs ds p.2 { st with dt := { st.dt with month := p.1 } }
    | .I => do
      let p ← numField 1 12 2 cs
      parseDirs ds p.2 { st with hour12 := some p.1 }
    | .P =>
      match cs with
      | a :: b :: rest =>
        if a.toLower = 'a' ∧ b.toLower = 'm' then
          parseDirs ds rest { st with pm := some false }
        else if a.toLower = 'p' ∧ b.toLower = 'm' then
          parseDirs ds rest { st with pm := some true }
        else none
      | _ => none

def isLeap (y : Nat) : Bool := (y % 4 = 0 && y % 100 ≠ 0) || y % 400 = 0

def daysInMonth (y m : Nat) : Nat :=
  if m = 2 then (if isLeap y then 29 else 28)
  else if m = 4 ∨ m = 6 ∨ m = 9 ∨ m = 11 then 30
  else 31

/-- Resolve `%I`/`%p` into the 24h hour and apply the calendar validation
performed by the `datetime` constructor that `datetime.strptime` ends in. -/
def finalizeDT (st : PState) : Option DT :=
  let h : Nat :=
    match st.hour12 with
    | some h12 =>
      match st.pm with
      | some true => if h12 = 12 then 12 else h12 + 12
      | some false => if h12 = 12 then 0 else h12
      | none => h12
    | none => st.dt.hour
  let dt : DT := { st.dt with hour := h }
  if 1 ≤ dt.year ∧ dt.day ≤ daysInMonth dt.year dt.month then some dt else none

def strptimeOne (f : List Dir) (cs : List Char) : Option DT :=
  (parseDirs f cs {}).bind finalizeDT

/-- The format list of `_parse_pdf_date`, in source order. -/
def pyFmts : List (List Dir) :=
  [[.Y, .lit '-', .Mo, .lit '-', .D, .sp, .H, .lit ':', .Mi, .lit ':', .S],
   [.Y, .lit '-', .Mo, .lit '-', .D, .sp, .H, .lit ':', .Mi],
   [.Y, .lit '-', .Mo, .lit '-', .D],
   [.Mo, .lit '-', .D, .lit '-', .Y, .sp, .H, .lit ':', .Mi, .lit ':', .S],
   [.Mo, .lit '-', .D, .lit '-', .Y, .sp, .H, .lit ':', .Mi],
   [.Mo, .lit '-', .D, .lit '-', .Y],
   [.Mo, .lit '/', .D, .lit '/', .Y],
   [.D, .lit '/', .Mo, .lit '/', .Y],
   [.D, .lit '-', .Mo, .lit '-', .Y],
   [.D, .sp, .B, .sp, .Y],
   [.B, .sp, .D, .lit ',', .sp, .Y]]

/-- `dt.strftime(f"%m-%d-%Y {hour:02d}:{minute:02d}")`. -/
def dtOut (dt : DT) : String := fmtOut dt.month dt.day dt.year dt.hour dt.minute

def strptimeList (cs : List Char) : Option String :=
  pyFmts.findSome? fun f => (strptimeOne f cs).map dtOut

/-- The `D:YYYYMMDD[HHmm...]` branch of `_parse_pdf_date` (slicing, `int`,
and re-formatting; a failure falls back to the strptime formats). -/
def pdfDBranch (cs : List Char) : Option String :=
  match parsePyInt ((cs.drop 2).take 4) with
  | none => none
  | some y =>
    match parsePyInt ((cs.drop 6).take 2) with
    | none => none
    | some m =>
      match parsePyInt ((cs.drop 8).take 2) with
      | none => none
      | some d =>
        match if 12 ≤ cs.length then parsePyInt ((cs.drop 10).take 2)
          else some 0 with
        | none => none
        | some hh =>
          match if 14 ≤ cs.length then parsePyInt ((cs.drop 12).take 2)
            else some 0 with
          | none => none
          | some mm => some (fmtOutD m d y hh mm)

/-- Model of `_parse_pdf_date`. -/
def parsePdfDate (s : String) : Option String :=
  if s = "" then none
  else if (trimChars s.data).take 2 = ['D', ':'] then
    match pdfDBranch (trimChars s.data) with
    | some r => some r
    | none => strptimeList (trimChars s.data)
  else strptimeList (trimChars s.data)

/-! ### Regex-based cell classifiers

Models of the `re` patterns used by `parse_tables`:
`_is_time_only` (`^\s*\d{1,2}:\d{2}(:\d{2})?(\s?[APMapm]{2})?\s*$`),
`_is_date_like_without_time`
(the date alternation (ISO dash form, short form with dash or slash separators, long month form),
searched, after an explicit colon exclusion), the `(\d{1,2}:\d{2})`
time extraction, `_strip_trailing_date`, and the year search
`(20\d{2}|19\d{2})`. -/

/-- Match `\d{1,2}:\d{2}` at the start (greedy two-digit hour first, then
the one-digit alternative, as the backtracking regex engine), returning the
matched characters and the rest. -/
def hmSplit (cs : List Char) : Option (List Char × List Char) :=
  match cs with
  | a :: b :: c :: d :: e :: rest =>
    if a.isDigit && b.isDigit && c = ':' && d.isDigit && e.isDigit then
      some ([a, b, c, d, e], rest)
    else if a.isDigit && b = ':' && c.isDigit && d.isDigit then
      some ([a, b, c, d], e :: rest)
    else none
  | [a, b, c, d] =>
    if a.isDigit && b = ':' && c.isDigit && d.isDigit then
      some ([a, b, c, d], [])
    else none
  | _ => none

/-- Consume an optional `(:\d{2})?` group. -/
def afterOptSec : List Char → List Char
  | ':' :: c :: d :: rest =>
    if c.isDigit && d.isDigit then rest else ':' :: c :: d :: rest
  | cs => cs

def isAmPmChar (c : Char) : Bool :=
  c = 'A' || c = 'P' || c = 'M' || c = 'a' || c = 'p' || c = 'm'

/-- Consume an optional `(\s?[APMapm]{2})?` group. -/
def afterOptAmPm (cs : List Char) : List Char :=
  match cs with
  | s :: a :: b :: rest =>
    if isPySpace s then (if isAmPmChar a && isAmPmChar b then rest else cs)
    else if isAmPmChar s && isAmPmChar a then b :: rest
    else cs
  | a :: b :: rest => if isAmPmChar a && isAmPmChar b then rest else cs
  | _ => cs

/-- Model of `_is_time_only`. -/
def isTimeOnly (s : String) : Bool :=
  if s = "" then false
  else
    match hmSplit (s.data.dropWhile isPySpace) with
    | some p => ((afterOptAmPm (afterOptSec p.2)).dropWhile isPySpace).isEmpty
    | none => false

def isTimeOnlyO : Option String → Bool
  | some s => isTimeOnly s
  | none => false

/-- First `\d{1,2}:\d{2}` match anywhere in the string (`re.search`). -/
def extractHMChars : List Char → Option (List Char)
  | [] => none
  | c :: cs =>
    match hmSplit (c :: cs) with
    | some p => some p.1
    | none => extractHMChars cs

def extractHM (s : String) : Option String :=
  (extractHMChars s.data).map fun cs => ⟨cs⟩

/-- Exactly `n` leading decimal digits; returns the rest. -/
def takeDigitsN : Nat → List Char → Option (List Char)
  | 0, cs => some cs
  | n + 1, c :: cs => if c.isDigit then takeDigitsN n cs else none
  | _ + 1, [] => none

def takeAlphaN : Nat → List Char → Option (List Char)
  | 0, cs => some cs
  | n + 1, c :: cs => if c.isAlpha then takeAlphaN n cs else none
  | _ + 1, [] => none

def isSepChar (c : Char) : Bool := c = '-' || c = '/'

def sepThen (cs : List Char) : Option (List Char) :=
  match cs with
  | c :: rest => if isSepChar c then some rest else none
  | [] => none

/-- `\d{4}-\d{2}-\d{2}` matches at the start. -/
def dateAltA : List Char → Bool
  | a :: b :: c :: d :: '-' :: e :: f :: '-' :: g :: h :: _ =>
    a.isDigit && b.isDigit && c.isDigit && d.isDigit && e.isDigit &&
      f.isDigit && g.isDigit && h.isDigit
  | _ => false

/-- The short date alternative (1-2 digits, dash or slash, 1-2 digits, dash or
slash, 2-4 digits) matches at the start (existence over the
counted repetitions, which is what the backtracking engine decides). -/
def dateAltB (cs : List Char) : Bool :=
  [1, 2].any fun l1 =>
    match takeDigitsN l1 cs with
    | some r1 =>
      match sepThen r1 with
      | some r2 =>
        [1, 2].any fun l2 =>
          match takeDigitsN l2 r2 with
          | some r3 =>
            match sepThen r3 with
            | some r4 => [2, 3, 4].any fun l3 => (takeDigitsN l3 r4).isSome
            | none => false
          | none => false
      | none => false
    | none => false

/-- `[A-Za-z]{3,9} \d{1,2}, \d{4}` matches at the start. -/
def dateAltC (cs : List Char) : Bool :=
  [3, 4, 5, 6, 7, 8, 9].any fun la =>
    match takeAlphaN la cs with
    | some (' ' :: r1) =>
      [1, 2].any fun ld =>
        match takeDigitsN ld r1 with
        | some (',' :: ' ' :: r2) => (takeDigitsN 4 r2).isSome
        | _ => false
    | _ => false

def dateAltAt (cs : List Char) : Bool := dateAltA cs || dateAltB cs || dateAltC cs

/-- `re.search` of the date pattern. -/
def searchDateLike : List Char → Bool
  | [] => false
  | c :: cs => dateAltAt (c :: cs) || searchDateLike cs

/-- Model of `_is_date_like_without_time`. -/
def isDateLikeWithoutTime (s : String) : Bool :=
  if s = "" then false
  else if s.data.contains ':' then false
  else searchDateLike s.data

def isDateLikeWithoutTimeO : Option String → Bool
  | some s => isDateLikeWithoutTime s
  | none => false

/-- The whole list is the short date alternative (anchored both ends). -/
def altBExact (cs : List Char) : Bool :=
  [1, 2].any fun l1 =>
    match takeDigitsN l1 cs with
    | some r1 =>
      match sepThen r1 with
      | some r2 =>
        [1, 2].any fun l2 =>
          match takeDigitsN l2 r2 with
          | some r3 =>
            match sepThen r3 with
            | some r4 => [2, 3, 4].any fun l3 => takeDigitsN l3 r4 = some []
            | none => false
          | none => false
      | none => false
    | none => false

/-- The whole list is `\d{4}-\d{2}-\d{2}`. -/
def altAExact : List Char → Bool
  | [a, b, c, d, '-', e, f, '-', g, h] =>
    a.isDigit && b.isDigit && c.isDigit && d.isDigit && e.isDigit &&
      f.isDigit && g.isDigit && h.isDigit
  | _ => false

/-- The suffix starting here matches `\s+(alt)$` (the group starts with a
digit, so `\s+` necessarily swallows the whole whitespace run). -/
def stripCandidate (cs : List Char) : Bool :=
  let rest := cs.dropWhile isPySpace
  !(cs.takeWhile isPySpace).isEmpty && (altBExact rest || altAExact rest)

def stripTrailingChars : List Char → List Char
  | [] => []
  | c :: cs => if stripCandidate (c :: cs) then [] else c :: stripTrailingChars cs

/-- Model of `_strip_trailing_date` (`re.sub` with an `$`-anchored pattern:
remove the leftmost whitespace-plus-trailing-date suffix). -/
def stripTrailingDate (s : String) : String := ⟨stripTrailingChars s.data⟩

/-- `re.search(r"(20\d{2}|19\d{2})", s)`: the first four matched characters. -/
def yearAt : List Char → Option (List Char)
  | a :: b :: c :: d :: _ =>
    if ((a = '2' && b = '0') || (a = '1' && b = '9')) && c.isDigit && d.isDigit
    then some [a, b, c, d] else none
  | _ => none

def searchYearChars : List Char → Option (List Char)
  | [] => none
  | c :: cs =>
    match yearAt (c :: cs) with
    | some r => some r
    | none => searchYearChars cs

/-! ### Field normalization helpers -/

/-- The time formats tried by `_normalize_and_combine_date_field`, in source
order: `%H:%M:%S`, `%H:%M`, `%I:%M %p`, `%I:%M:%S %p`. -/
def timeFmts : List (List Dir) :=
  [[.H, .lit ':', .Mi, .lit ':', .S],
   [.H, .lit ':', .Mi],
   [.I, .lit ':', .Mi, .sp, .P],
   [.I, .lit ':', .Mi, .lit ':', .S, .sp, .P]]

/-- `datetime.strptime(s, tf).strftime("%H:%M")`. -/
def strptimeTime (f : List Dir) (cs : List Char) : Option String :=
  (strptimeOne f cs).map fun dt => pad2 dt.hour ++ ":" ++ pad2 dt.minute

/-- `str(x).split()[0]` for the strings this code applies it to. -/
def datePart (s : String) : String :=
  ⟨(s.data.dropWhile isPySpace).takeWhile fun c => !isPySpace c⟩

/-- The date part that `_normalize_and_combine_date_field` extracts from the
document-level date string for a time-only cell: the first token of its
parse when it parses, else `01-01-` plus the first `20xx`/`19xx` year found
in it. -/
def docDatePart (docDate : Option String) : Option String :=
  match docDate with
  | some ds =>
    if ds = "" then none
    else
      match parsePdfDate ds with
      | some parsed => some (datePart parsed)
      | none => (searchYearChars ds.data).map fun y => "01-01-" ++ ⟨y⟩
  | none => none

/-- Model of `_normalize_and_combine_date_field` on a present value. -/
def normalizeDateField (s : String) (docDate : Option String) : Option String :=
  if s = "" then none
  else if isTimeOnly (strip s) then
    match timeFmts.findSome? (fun f => strptimeTime f (strip s).data) with
    | some tp =>
      match docDatePart docDate with
      | some dps => some (dps ++ " " ++ tp)
      | none => some tp
    | none => none
  else parsePdfDate (strip s)

/-- `_normalize_and_combine_date_field` including the `if not s` guard. -/
def normalizeCombineO (o : Option String) (docDate : Option String) : Option String :=
  match o with
  | none => none
  | some s => normalizeDateField s docDate

/-- Model of `int(str(v).strip())`. -/
def parseIntPy (cs : List Char) : Option Int := parsePyInt cs

/-- Model of `_to_int_safe` on a string value. -/
def toIntSafe (s : String) : Option Int :=
  let t := strip s
  if t = "" then none else parseIntPy t.data

/-- Model of `_is_valid_document_name` (same body as the `_local` copy in
the fallback path). -/
def validDocName (s : String) : Bool :=
  if s = "" then false
  else if !(strip s).data.isEmpty && (strip s).data.all Char.isDigit then false
  else (strip s).data.contains '.' || (strip s).data.any Char.isAlpha

/-! ### The normalized record and the per-table reconciliation
(dataframe path of `parse_tables`) -/

/-- The `TableData` dataclass (`src/models/table_data.py`); the three index
fields are `int`-or-`None` as produced by `_to_int_safe`. -/
structure TableData where
  document_name : String
  table_number : Option Int
  row_number : Option Int
  column_number : Option Int
  cell_content : String
  extracted_date : Option String
  deriving Repr, DecidableEq

/-- A row after shape normalization: exactly seven cells. -/
structure Row7 where
  c0 : String
  c1 : String
  c2 : String
  c3 : String
  c4 : String
  c5 : String
  c6 : String
  deriving Repr, DecidableEq

/-- The `last_seen` carry state (one slot per output position). -/
structure LS7 where
  l0 : Option String
  l1 : Option String
  l2 : Option String
  l3 : Option String
  l4 : Option String
  l5 : Option String
  l6 : Option String
  deriving Repr, DecidableEq

def initLS : LS7 := ⟨none, none, none, none, none, none, none⟩

/-- Step 2 of the per-row loop: the eight-column date/time merge. -/
def mergeRow8 (r : List String) : List String :=
  if 8 ≤ r.length ∧ isDateLikeWithoutTime (r.getD 6 "") ∧ isTimeOnly (r.getD 7 "") then
    (r.set 6
      (match extractHM (r.getD 7 "") with
       | some t => r.getD 6 "" ++ " " ++ t
       | none => r.getD 6 "" ++ " " ++ r.getD 7 "")).eraseIdx 7
  else r

/-- Steps 2-3 of the per-row loop: the eight-column date/time merge, then
padding with empty strings to at least seven cells, then truncation to the
first seven. -/
def shapeRowL (r : List String) : List String :=
  (mergeRow8 r ++ List.replicate (7 - (mergeRow8 r).length) "").take 7

def toRow7 (r : List String) : Row7 :=
  ⟨r.getD 0 "", r.getD 1 "", r.getD 2 "", r.getD 3 "", r.getD 4 "",
   r.getD 5 "", r.getD 6 ""⟩

/-- One cell of the forward-fill: an empty cell takes the last seen value
when one exists. -/
def fillCell (c : String) (o : Option String) : String :=
  if c = "" then
    match o with
    | some v => v
    | none => c
  else c

def ffillRow (r : Row7) (ls : LS7) : Row7 :=
  ⟨fillCell r.c0 ls.l0, fillCell r.c1 ls.l1, fillCell r.c2 ls.l2,
   fillCell r.c3 ls.l3, fillCell r.c4 ls.l4, fillCell r.c5 ls.l5,
   fillCell r.c6 ls.l6⟩

def updCell (c : String) (o : Option String) : Option String :=
  if c ≠ "" then some c else o

/-- `last_seen[1]` is only updated by a valid document name. -/
def updNameCell (c : String) (o : Option String) : Option String :=
  if c ≠ "" ∧ validDocName c then some c else o

def updateLS (r : Row7) (ls : LS7) : LS7 :=
  ⟨updCell r.c0 ls.l0, updNameCell r.c1 ls.l1, updCell r.c2 ls.l2,
   updCell r.c3 ls.l3, updCell r.c4 ls.l4, updCell r.c5 ls.l5,
   updCell r.c6 ls.l6⟩

/-- Document-name validation: an invalid candidate is replaced by the last
seen valid name when one is available. -/
def resolveName (c : String) (o : Option String) : String :=
  if validDocName c then c
  else
    match o with
    | some v => if v ≠ "" ∧ validDocName v then v else c
    | none => c

/-- Truthiness of `prev_seventh` in the cross-row combine. -/
def prevTruthy : Option String → Bool
  | some p => p ≠ ""
  | none => false

/-- Case (a): a time-only current value combined with the previous row's
resolved seventh value. -/
def combineWithPrev (prev : Option String) (raw7 : String) : Option String :=
  match prev with
  | some p =>
    match parsePdfDate p with
    | some parsed => (extractHM raw7).map fun t => datePart parsed ++ " " ++ t
    | none => none
  | none => none

/-- Case (b): a date-only current value combined with a time-only value in
the next materialized row; on success the combined value is also written
back into cell 7 of the next row.  (A next row with fewer than seven cells
reads as a `None` date value, which is never time-only.) -/
def combineWithNext (raw7 : String) (next : List String) :
    Option String × List String :=
  if 7 ≤ next.length ∧ isTimeOnly (next.getD 6 "") then
    match parsePdfDate raw7 with
    | some parsed =>
      match extractHM (next.getD 6 "") with
      | some t => (some (datePart parsed ++ " " ++ t),
                   next.set 6 (datePart parsed ++ " " ++ t))
      | none => (none, next)
    | none => (none, next)
  else (none, next)

/-- The three-way seventh-column reconciliation (cases (a), (b), and the
fall-through marker `none` that leads to plain normalization), together
with the possibly written-back next row. -/
def combineStep (prev : Option String) (raw7 : Option String)
    (next : Option (List String)) : Option String × Option (List String) :=
  match raw7 with
  | some rv =>
    if isTimeOnly rv ∧ prevTruthy prev then (combineWithPrev prev rv, next)
    else if isDateLikeWithoutTime rv ∧ next.isSome then
      match next with
      | some n => ((combineWithNext rv n).1, some (combineWithNext rv n).2)
      | none => (none, next)
    else (none, next)
  | none => (none, next)

structure StepOut where
  record : TableData
  ls : LS7
  prev : Option String
  next : Option (List String)
  deriving Repr, DecidableEq

/-- The current row after shape normalization and forward-fill. -/
def filledRow (ls : LS7) (raw : List String) : Row7 :=
  ffillRow (toRow7 (shapeRowL raw)) ls

/-- `raw_seventh`: the (possibly forward-filled) seventh cell, `None` when
empty. -/
def rawSeventh (r : Row7) : Option String :=
  if r.c6 ≠ "" then some r.c6 else none

/-- The resolved seventh-column value: the cross-row/cross-column combined
value when one was produced, else the normalization of the raw value
against the document-level date. -/
def seventhValue (ed : Option String) (ls : LS7) (prev : Option String)
    (raw : List String) (next : Option (List String)) : Option String :=
  match (combineStep prev (rawSeventh (filledRow ls raw)) next).1 with
  | some c => some c
  | none => normalizeCombineO (rawSeventh (filledRow ls raw)) ed

/-- Processing of one materialized row of the dataframe path: shape
normalization, forward-fill, document-name validation, trailing-date
stripping, the three-way date reconciliation (with look-ahead write-back
into the next row), record emission, and the `last_seen` update. -/
def stepRow (ed : Option String) (ls : LS7) (prev : Option String)
    (raw : List String) (next : Option (List String)) : StepOut :=
  { record :=
      { document_name := resolveName (filledRow ls raw).c1 ls.l1
        table_number := toIntSafe (filledRow ls raw).c2
        row_number := toIntSafe (filledRow ls raw).c3
        column_number := toIntSafe (filledRow ls raw).c4
        cell_content := stripTrailingDate (filledRow ls raw).c5
        extracted_date := seventhValue ed ls prev raw next }
    ls := updateLS (filledRow ls raw) ls
    prev := seventhValue ed ls prev raw next
    next := (combineStep prev (rawSeventh (filledRow ls raw)) next).2 }

/-- The row loop, with the current row held apart from the remaining rows
so that the look-ahead write-back is the head of the remaining list. -/
def goAux (ed : Option String) : List String → List (List String) → LS7 →
    Option String → List TableData
  | cur, [], ls, prev => [(stepRow ed ls prev cur none).record]
  | cur, n :: rest, ls, prev =>
    let o := stepRow ed ls prev cur (some n)
    let n2 := match o.next with
      | some m => m
      | none => n
    o.record :: goAux ed n2 rest o.ls o.prev

/-- Reconciliation of one table's materialized rows with fresh carry state. -/
def reconcileRows (rows : List (List String)) (ed : Option String) :
    List TableData :=
  match rows with
  | [] => []
  | r :: rest => goAux ed r rest initLS none

/-- The dataframe path for one table: the first row of the very first table
(`table_idx == 1 and row_idx == 1`) is skipped unconditionally, before any
processing and without touching the carry state. -/
def processTableDF (tableIdx : Nat) (rows : List (List String))
    (ed : Option String) : List TableData :=
  if tableIdx = 1 then reconcileRows rows.tail ed else reconcileRows rows ed

/-- The rows that take part in reconciliation (the designated header row of
the first table excluded). -/
def processedRows (tableIdx : Nat) (rows : List (List String)) :
    List (List String) :=
  if tableIdx = 1 then rows.tail else rows

/-! ### The fallback raw-matrix path and the document-level control flow -/

/-- The eight-column merge of the fallback path (its date test is a bare
`re.search` of the date alternation, without the colon exclusion),
followed by padding and truncation. -/
def mergeRow8FB (r : List String) : List String :=
  if 8 ≤ r.length ∧ searchDateLike (r.getD 6 "").data ∧ isTimeOnly (r.getD 7 "") then
    (r.set 6
      (match extractHM (r.getD 7 "") with
       | some t => r.getD 6 "" ++ " " ++ t
       | none => r.getD 6 "" ++ " " ++ r.getD 7 "")).eraseIdx 7
  else r

def shapeRowFB (r : List String) : List String :=
  (mergeRow8FB r ++ List.replicate (7 - (mergeRow8FB r).length) "").take 7

/-- The final value of the loop variable `row_values` after the fallback
path's row loop: the last row's shaped cells, except that the lone header
row of a first table is left unshaped (the skip fires before the merge and
padding); `none` when the table has no rows at all and the variable was
never bound. -/
def fallbackFinal (tableIdx : Nat) (data : List (List String)) :
    Option (List String) :=
  match data.getLast? with
  | none => none
  | some last =>
    if tableIdx = 1 ∧ data.length = 1 then some last
    else some (shapeRowFB last)

/-- Model of the fallback raw-matrix path of `parse_tables`, processed with
fresh function state.  The `while len(row_values) < 7` loop that contains
the entire record-emission body sits after (not inside) the row loop, so:
with a final `row_values` of length at least seven the loop body never runs
and no record is emitted; with a shorter final value the body raises on its
first iteration (an unbound local name or an out-of-range index in the
forward-fill), and with no rows at all `row_values` itself is unbound.
Errors propagate out of the per-table handler. -/
def fallbackPath (tableIdx : Nat) (data : List (List String)) :
    Except Unit (List TableData) :=
  match fallbackFinal tableIdx data with
  | none => .error ()
  | some rv => if 7 ≤ rv.length then .ok [] else .error ()

/-- What the per-table iteration sees for one table: a successful dataframe
export, or a failed export with (`fb (some data)`) or without (`fb none`)
a usable `data` attribute. -/
inductive TableSrc
  | df (rows : List (List String))
  | fb (data : Option (List (List String)))
  deriving Repr

/-- One iteration of the table loop. -/
def runTable (tableIdx : Nat) (ed : Option String) :
    TableSrc → Except Unit (List TableData)
  | .df rows => .ok (processTableDF tableIdx rows ed)
  | .fb none => .ok []
  | .fb (some data) => fallbackPath tableIdx data

def parseTablesAux (idx : Nat) (ed : Option String) :
    List TableSrc → Except Unit (List TableData)
  | [] => .ok []
  | t :: ts => do
    let rs ← runTable idx ed t
    let rest ← parseTablesAux (idx + 1) ed ts
    pure (rs ++ rest)

/-- The table loop of `parse_tables` (tables enumerated from 1); an
exception from any table aborts the whole call. -/
def parseTablesModel (tables : List TableSrc) (ed : Option String) :
    Except Unit (List TableData) :=
  parseTablesAux 1 ed tables

/-- Document-level behavior: a converter failure propagates to the caller. -/
def parseDocModel (conv : Except Unit (List TableSrc)) (ed : Option String) :
    Except Unit (List TableData) :=
  match conv with
  | .error e => .error e
  | .ok ts => parseTablesModel ts ed

/-! ### Shape predicates and auxiliary models used by the theorems -/

/-- `MM-DD-YYYY HH:MM` with two-digit month/day/hour/minute and four-digit
year (the claimed output shape for `extracted_date`). -/
def isFullShapeL : List Char → Bool
  | [a, b, '-', c, d, '-', e, f, g, h, ' ', i, j, ':', k, l] =>
    a.isDigit && b.isDigit && c.isDigit && d.isDigit && e.isDigit &&
      f.isDigit && g.isDigit && h.isDigit && i.isDigit && j.isDigit &&
      k.isDigit && l.isDigit
  | _ => false

def isFullShape (s : String) : Bool := isFullShapeL s.data

/-- `HH:MM`: the bare normalized time emitted for a time-only cell with no
date antecedent. -/
def isTimeShapeL : List Char → Bool
  | [i, j, ':', k, l] => i.isDigit && j.isDigit && k.isDigit && l.isDigit
  | _ => false

def isTimeShape (s : String) : Bool := isTimeShapeL s.data

/-- A nonempty run of decimal digits, optionally preceded by a single
minus sign (the shape of every numeric field the two formatters emit). -/
def sdigitsB : List Char → Bool
  | [] => false
  | c :: rest =>
    if c = '-' then !rest.isEmpty && rest.all Char.isDigit
    else c.isDigit && rest.all Char.isDigit

/-- `<hour>:<minute>` with both fields nonempty optionally-signed digit
runs (hours are one or two characters in every emitted value, but signed
`D:` slices make the widths value-dependent). -/
def isTimeTokL (tm : List Char) : Bool :=
  sdigitsB (tm.takeWhile (fun x => x != ':')) &&
    match tm.dropWhile (fun x => x != ':') with
    | ':' :: mtok => sdigitsB mtok
    | _ => false

/-- `<m>-<d>-<y> <time>`: month and day exactly two characters each (a
digit pair, or a minus sign and a digit), the year a nonempty
optionally-signed digit run (unpadded below 1000 on the strftime path,
sign-bearing and zero-padded on the `D:` f-string path), then a space and
a time of `isTimeTokL` shape. -/
def isDateTimeShapeL : List Char → Bool
  | a :: b :: s1 :: c :: d :: s2 :: rest =>
    (a.isDigit || a = '-') && b.isDigit && s1 = '-' &&
      (c.isDigit || c = '-') && d.isDigit && s2 = '-' &&
      sdigitsB (rest.takeWhile (fun x => x != ' ')) &&
      match rest.dropWhile (fun x => x != ' ') with
      | ' ' :: tm => isTimeTokL tm
      | _ => false
  | _ => false

def isDateTimeShape (s : String) : Bool := isDateTimeShapeL s.data

/-- The possible shapes of an emitted `extracted_date`. -/
def dateShapeOK : Option String → Bool
  | none => true
  | some v => isDateTimeShape v || isTimeShape v

/-- A non-empty string of decimal digits (Python `str.isdigit`). -/
def pureDigits (s : String) : Bool := !s.data.isEmpty && s.data.all Char.isDigit

/-- The forward-fill scan at a single cell position: each empty cell takes
the carried value; a non-empty result becomes the new carry. -/
def scanFill (init : Option String) : List String → List String
  | [] => []
  | c :: cs =>
    let f := fillCell c init
    f :: scanFill (updCell f init) cs

/-- Raw cell of a row at a position (missing cells read as empty). -/
def cellAt (r : List String) (q : Nat) : String := r.getD q ""

/-- Default record used when indexing emitted record lists. -/
def dfltRec : TableData :=
  { document_name := "", table_number := none, row_number := none,
    column_number := none, cell_content := "", extracted_date := none }

/-- The hypotheses of the forward-fill property at 0-indexed cell position
`q` for processed rows `j < i`: row `i`'s raw cell is empty, row `j`'s raw
cell is non-empty, and every row strictly between them has an empty raw
cell at that position. -/
def ffillHyp (prows : List (List String)) (q j i : Nat) : Prop :=
  j < i ∧ i < prows.length ∧ cellAt (prows.getD i []) q = "" ∧
    cellAt (prows.getD j []) q ≠ "" ∧
    ∀ k, j < k → k < i → cellAt (prows.getD k []) q = ""

/-- `<m>-<d>-<y>`: the date part carried into combined values — month and
day exactly two characters each (digit pair or minus-digit), the year a
nonempty optionally-signed digit run. -/
def isDatePartShapeL : List Char → Bool
  | a :: b :: s1 :: c :: d :: s2 :: rest =>
    (a.isDigit || a = '-') && b.isDigit && s1 = '-' &&
      (c.isDigit || c = '-') && d.isDigit && s2 = '-' && sdigitsB rest
  | _ => false

def isDatePartShape (s : String) : Bool := isDatePartShapeL s.data

/-! ## Theorems -/

theorem goAux_length (ed : Option String) :
    ∀ (rest : List (List String)) (cur : List String) (ls : LS7)
      (prev : Option String),
      (goAux ed cur rest ls prev).length = rest.length + 1 := by
  intro rest
  induction rest with
  | nil => intro cur ls prev; simp [goAux]
  | cons n t ih => intro cur ls prev; simp [goAux, ih]

theorem reconcileRows_length (rows : List (List String)) (ed : Option String) :
    (reconcileRows rows ed).length = rows.length := by
  cases rows with
  | nil => simp [reconcileRows]
  | cons r rest => simp [reconcileRows, goAux_length]

/-- C1: in the dataframe path every surviving row (all materialized rows,
minus the unconditionally dropped header row of the first table) yields
exactly one record.  The fallback raw-matrix path however emits no record
at all for a well-formed two-row first table whose rows have seven cells
each (its emission body sits inside a dead `while` loop): the claim's
"one record per surviving row" fails there, as the second conjunct shows
on a concrete failing input where one record is expected. -/
theorem claim1_row_count :
    (∀ tableIdx rows ed,
        (processTableDF tableIdx rows ed).length
          = (processedRows tableIdx rows).length) ∧
      fallbackPath 1
        [["a", "m.pdf", "1", "1", "1", "x", ""],
         ["b", "m.pdf", "1", "1", "2", "y", ""]] = .ok [] := by
  constructor
  · intro tableIdx rows ed
    by_cases h : tableIdx = 1 <;>
      simp [processTableDF, processedRows, h, reconcileRows_length]
  · rfl

/-- C4: the first materialized row of the very first table is dropped
unconditionally (processing the remaining rows exactly as a non-first
table would), and on the spec's concrete scenario the output is the single
expected record. -/
theorem claim4_header_drop :
    (∀ r rows ed, processTableDF 1 (r :: rows) ed = processTableDF 2 rows ed) ∧
      processTableDF 1
        [["h1", "h2", "h3", "h4", "h5", "h6", "h7"],
         ["X", "doc.pdf", "1", "1", "1", "Hello", "10-01-2026 09:00"]] none
        = [{ document_name := "doc.pdf", table_number := some 1,
             row_number := some 1, column_number := some 1,
             cell_content := "Hello",
             extracted_date := some "10-01-2026 09:00" }] := by
  constructor
  · intro r rows ed; simp [processTableDF]
  · rfl

/-- C9: the claim's "a failed table-conversion step is logged and skipped
and the remaining tables continue" is broken by the fallback path: with an
export failure on a first table whose `data` is a single two-cell row, the
dead-code `while` loop raises and the whole document is aborted (first
conjunct); the document-level propagation direction of the claim does hold
(second conjunct). -/
theorem claim9_failure_semantics :
    parseTablesModel [.fb (some [["a", "b"]])] none = .error () ∧
      (∀ ed, parseDocModel (.error ()) ed = .error ()) :=
  ⟨rfl, fun _ => rfl⟩

theorem combineWithNext_frame (rv : String) (n : List String) :
    (combineWithNext rv n).2 = n ∨ ∃ c, (combineWithNext rv n).2 = n.set 6 c := by
  unfold combineWithNext
  split
  · split
    · split
      · exact Or.inr ⟨_, rfl⟩
      · exact Or.inl rfl
    · exact Or.inl rfl
  · exact Or.inl rfl

theorem combineStep_frame (prev : Option String) (raw7 : Option String)
    (next : Option (List String)) :
    (combineStep prev raw7 next).2 = next ∨
      ∃ c n, next = some n ∧ (combineStep prev raw7 next).2 = some (n.set 6 c) := by
  unfold combineStep
  split
  · rename_i rv
    split
    · exact Or.inl rfl
    · split
      · split
        · rename_i n hc
          rcases combineWithNext_frame rv n with h | ⟨c, h⟩
          · exact Or.inl (by simp [h])
          · exact Or.inr ⟨c, n, rfl, by simp [h]⟩
        · exact Or.inl rfl
      · exact Or.inl rfl
  · exact Or.inl rfl

theorem digitChar_mod10_isDigit (n : Nat) :
    (Nat.digitChar (n % 10)).isDigit = true := by
  have h : n % 10 < 10 := Nat.mod_lt _ (by norm_num)
  interval_cases h2 : n % 10 <;> decide

theorem digitChar_mod10_not_space (n : Nat) :
    isPySpace (Nat.digitChar (n % 10)) = false := by
  have h : n % 10 < 10 := Nat.mod_lt _ (by norm_num)
  interval_cases h2 : n % 10 <;> decide

theorem pad2_data (n : Nat) :
    (pad2 n).data = [Nat.digitChar (n / 10 % 10), Nat.digitChar (n % 10)] := rfl

theorem pad4_data (n : Nat) :
    (pad4 n).data = [Nat.digitChar (n / 1000 % 10), Nat.digitChar (n / 100 % 10),
      Nat.digitChar (n / 10 % 10), Nat.digitChar (n % 10)] := rfl

theorem digitVal_le9 (c : Char) (h : c.isDigit = true) : digitVal c ≤ 9 := by
  simp only [Char.isDigit, Bool.and_eq_true, decide_eq_true_eq] at h
  obtain ⟨h1, h2⟩ := h
  have g1 : c.toNat ≤ 57 := h2
  have g2 : 48 ≤ c.toNat := h1
  unfold digitVal
  have g3 : Char.toNat '0' = 48 := rfl
  omega

theorem isDigit_isPySpace_false (c : Char) (h : c.isDigit = true) :
    isPySpace c = false := by
  by_contra hb
  simp only [Bool.not_eq_false] at hb
  simp only [isPySpace, Bool.or_eq_true, decide_eq_true_eq] at hb
  rcases hb with ((((h1 | h1) | h1) | h1) | h1) | h1 <;> subst h1 <;> simp at h

theorem isDigit_bne_space (c : Char) (h : c.isDigit = true) :
    (c != ' ') = true := by
  cases hbe : c == ' '
  · simp [bne, hbe]
  · have he : c = ' ' := eq_of_beq hbe
    subst he
    exact absurd h (by decide)

theorem isDigit_bne_colon (c : Char) (h : c.isDigit = true) :
    (c != ':') = true := by
  cases hbe : c == ':'
  · simp [bne, hbe]
  · have he : c = ':' := eq_of_beq hbe
    subst he
    exact absurd h (by decide)

theorem sdigitsB_cons (c : Char) (rest : List Char) :
    sdigitsB (c :: rest)
      = if c = '-' then !rest.isEmpty && rest.all Char.isDigit
        else c.isDigit && rest.all Char.isDigit := rfl

theorem sdigitsB_of_digits (cs : List Char) (h1 : cs ≠ [])
    (h2 : ∀ c ∈ cs, c.isDigit = true) : sdigitsB cs = true := by
  cases cs with
  | nil => exact absurd rfl h1
  | cons c rest =>
    have hcd : c.isDigit = true := h2 c (by simp)
    have hcne : ¬(c = '-') := by
      intro he
      rw [he] at hcd
      exact absurd hcd (by decide)
    rw [sdigitsB_cons, if_neg hcne]
    simp only [Bool.and_eq_true, List.all_eq_true]
    exact ⟨hcd, fun x hx => h2 x (by simp [hx])⟩

theorem sdigitsB_one (u : Char) (hu : u.isDigit = true) :
    sdigitsB [u] = true := by
  rw [sdigitsB_cons]
  rw [if_neg (by
    intro he
    rw [he] at hu
    exact absurd hu (by decide))]
  simp [hu]

theorem sdigitsB_two (u v : Char) (hu : u.isDigit = true)
    (hv : v.isDigit = true) : sdigitsB [u, v] = true := by
  rw [sdigitsB_cons]
  rw [if_neg (by
    intro he
    rw [he] at hu
    exact absurd hu (by decide))]
  simp [hu, hv]

theorem sdigitsB_four (u v w x : Char) (hu : u.isDigit = true)
    (hv : v.isDigit = true) (hw : w.isDigit = true) (hx : x.isDigit = true) :
    sdigitsB [u, v, w, x] = true := by
  rw [sdigitsB_cons]
  rw [if_neg (by
    intro he
    rw [he] at hu
    exact absurd hu (by decide))]
  simp [hu, hv, hw, hx]

theorem sdigitsB_chars (cs : List Char) (h : sdigitsB cs = true) :
    ∀ c ∈ cs, c.isDigit = true ∨ c = '-' := by
  cases cs with
  | nil => simp
  | cons c rest =>
    rw [sdigitsB_cons] at h
    by_cases hc : c = '-'
    · rw [if_pos hc] at h
      simp only [Bool.and_eq_true, List.all_eq_true] at h
      intro x hx
      rcases List.mem_cons.mp hx with hx | hx
      · exact Or.inr (hx.trans hc)
      · exact Or.inl (h.2 x hx)
    · rw [if_neg hc] at h
      simp only [Bool.and_eq_true, List.all_eq_true] at h
      intro x hx
      rcases List.mem_cons.mp hx with hx | hx
      · subst hx
        exact Or.inl h.1
      · exact Or.inl (h.2 x hx)

theorem sdigitsB_ne_nil (cs : List Char) (h : sdigitsB cs = true) : cs ≠ [] := by
  intro he
  subst he
  exact absurd h (by decide)

theorem sdigitsB_bne_space (cs : List Char) (h : sdigitsB cs = true) :
    ∀ c ∈ cs, (c != ' ') = true := by
  intro c hc
  rcases sdigitsB_chars cs h c hc with hd | hd
  · exact isDigit_bne_space c hd
  · subst hd; decide

theorem sdigitsB_bne_colon (cs : List Char) (h : sdigitsB cs = true) :
    ∀ c ∈ cs, (c != ':') = true := by
  intro c hc
  rcases sdigitsB_chars cs h c hc with hd | hd
  · exact isDigit_bne_colon c hd
  · subst hd; decide

theorem sdigitsB_not_space (cs : List Char) (h : sdigitsB cs = true) :
    ∀ c ∈ cs, isPySpace c = false := by
  intro c hc
  rcases sdigitsB_chars cs h c hc with hd | hd
  · exact isDigit_isPySpace_false c hd
  · subst hd; decide

theorem takeWhile_append_all (p : Char → Bool) (l1 l2 : List Char)
    (h : ∀ c ∈ l1, p c = true) :
    (l1 ++ l2).takeWhile p = l1 ++ l2.takeWhile p := by
  induction l1 with
  | nil => simp
  | cons a t ih =>
    simp only [List.cons_append, List.takeWhile_cons, h a (by simp), if_true]
    rw [ih (fun c hc => h c (by simp [hc]))]

theorem dropWhile_append_all (p : Char → Bool) (l1 l2 : List Char)
    (h : ∀ c ∈ l1, p c = true) :
    (l1 ++ l2).dropWhile p = l2.dropWhile p := by
  induction l1 with
  | nil => simp
  | cons a t ih =>
    simp only [List.cons_append, List.dropWhile_cons, h a (by simp), if_true]
    exact ih (fun c hc => h c (by simp [hc]))

theorem natDecAux_zero (f : Nat) : natDecAux f 0 = [] := by
  cases f <;> simp [natDecAux]

theorem natDecAux_digits :
    ∀ (f n : Nat), ∀ c ∈ natDecAux f n, c.isDigit = true := by
  intro f
  induction f with
  | zero => intro n c hc; simp [natDecAux] at hc
  | succ f2 ih =>
    intro n c hc
    unfold natDecAux at hc
    split at hc
    · simp at hc
    · rcases List.mem_append.mp hc with hc | hc
      · exact ih _ c hc
      · simp only [List.mem_singleton] at hc
        subst hc
        exact digitChar_mod10_isDigit n

theorem natDec_digits (n : Nat) : ∀ c ∈ natDec n, c.isDigit = true := by
  unfold natDec
  split
  · intro c hc
    simp only [List.mem_singleton] at hc
    subst hc
    decide
  · exact natDecAux_digits n n

theorem natDec_ne_nil (n : Nat) : natDec n ≠ [] := by
  unfold natDec
  split
  · simp
  · rename_i hn
    obtain ⟨f2, hf⟩ : ∃ f2, n = f2 + 1 := ⟨n - 1, by omega⟩
    subst hf
    unfold natDecAux
    rw [if_neg hn]
    simp

theorem natDecAux_eq1 (f n : Nat) (h1 : 1 ≤ n) (h2 : n ≤ 9) (hf : 1 ≤ f) :
    natDecAux f n = [Nat.digitChar n] := by
  obtain ⟨f2, hf2⟩ : ∃ f2, f = f2 + 1 := ⟨f - 1, by omega⟩
  subst hf2
  unfold natDecAux
  rw [if_neg (by omega)]
  have hd : n / 10 = 0 := by omega
  rw [hd, natDecAux_zero]
  have hm : n % 10 = n := by omega
  rw [hm]
  simp

theorem natDecAux_eq2 (f n : Nat) (h1 : 10 ≤ n) (h2 : n ≤ 99) (hf : 2 ≤ f) :
    natDecAux f n = [Nat.digitChar (n / 10), Nat.digitChar (n % 10)] := by
  obtain ⟨f2, hf2⟩ : ∃ f2, f = f2 + 1 := ⟨f - 1, by omega⟩
  subst hf2
  unfold natDecAux
  rw [if_neg (by omega)]
  rw [natDecAux_eq1 f2 (n / 10) (by omega) (by omega) (by omega)]
  simp

theorem natDecAux_eq3 (f n : Nat) (h1 : 100 ≤ n) (h2 : n ≤ 999) (hf : 3 ≤ f) :
    natDecAux f n = [Nat.digitChar (n / 100), Nat.digitChar (n / 10 % 10),
      Nat.digitChar (n % 10)] := by
  obtain ⟨f2, hf2⟩ : ∃ f2, f = f2 + 1 := ⟨f - 1, by omega⟩
  subst hf2
  unfold natDecAux
  rw [if_neg (by omega)]
  rw [natDecAux_eq2 f2 (n / 10) (by omega) (by omega) (by omega)]
  have hda : n / 10 / 10 = n / 100 := by omega
  have hdb : n / 10 % 10 = n / 10 % 10 := rfl
  rw [hda]
  simp

theorem natDecAux_eq4 (f n : Nat) (h1 : 1000 ≤ n) (h2 : n ≤ 9999)
    (hf : 4 ≤ f) :
    natDecAux f n = [Nat.digitChar (n / 1000), Nat.digitChar (n / 100 % 10),
      Nat.digitChar (n / 10 % 10), Nat.digitChar (n % 10)] := by
  obtain ⟨f2, hf2⟩ : ∃ f2, f = f2 + 1 := ⟨f - 1, by omega⟩
  subst hf2
  unfold natDecAux
  rw [if_neg (by omega)]
  rw [natDecAux_eq3 f2 (n / 10) (by omega) (by omega) (by omega)]
  have hda : n / 10 / 100 = n / 1000 := by omega
  have hdb : n / 10 / 10 % 10 = n / 100 % 10 := by omega
  rw [hda, hdb]
  simp

theorem natDec_eq1 (n : Nat) (h : n ≤ 9) : natDec n = [Nat.digitChar n] := by
  unfold natDec
  split
  · rename_i hn
    subst hn
    decide
  · rename_i hn
    exact natDecAux_eq1 n n (by omega) h (by omega)

theorem natDec_eq2 (n : Nat) (h1 : 10 ≤ n) (h2 : n ≤ 99) :
    natDec n = [Nat.digitChar (n / 10), Nat.digitChar (n % 10)] := by
  unfold natDec
  rw [if_neg (by omega)]
  exact natDecAux_eq2 n n h1 h2 (by omega)

theorem natDec_eq3 (n : Nat) (h1 : 100 ≤ n) (h2 : n ≤ 999) :
    natDec n = [Nat.digitChar (n / 100), Nat.digitChar (n / 10 % 10),
      Nat.digitChar (n % 10)] := by
  unfold natDec
  rw [if_neg (by omega)]
  exact natDecAux_eq3 n n h1 h2 (by omega)

theorem natDec_eq4 (n : Nat) (h1 : 1000 ≤ n) (h2 : n ≤ 9999) :
    natDec n = [Nat.digitChar (n / 1000), Nat.digitChar (n / 100 % 10),
      Nat.digitChar (n / 10 % 10), Nat.digitChar (n % 10)] := by
  unfold natDec
  rw [if_neg (by omega)]
  exact natDecAux_eq4 n n h1 h2 (by omega)

theorem pyFmtW2_eq_pad2 (n : Nat) (h : n ≤ 99) : pyFmtW 2 (n : Int) = pad2 n := by
  unfold pyFmtW
  rw [if_neg (by omega)]
  rw [Int.natAbs_ofNat]
  rcases Nat.lt_or_ge n 10 with h10 | h10
  · rw [natDec_eq1 n (by omega)]
    unfold pad2
    have ha : n / 10 % 10 = 0 := by omega
    have hb : n % 10 = n := by omega
    rw [ha, hb]
    rfl
  · rw [natDec_eq2 n h10 h]
    unfold pad2
    have ha : n / 10 % 10 = n / 10 := by omega
    rw [ha]
    rfl

theorem pyFmtW4_eq_pad4 (n : Nat) (h : n ≤ 9999) :
    pyFmtW 4 (n : Int) = pad4 n := by
  unfold pyFmtW
  rw [if_neg (by omega)]
  rw [Int.natAbs_ofNat]
  rcases Nat.lt_or_ge n 10 with h10 | h10
  · rw [natDec_eq1 n (by omega)]
    unfold pad4
    have ha : n / 1000 % 10 = 0 := by omega
    have hb : n / 100 % 10 = 0 := by omega
    have hc : n / 10 % 10 = 0 := by omega
    have hd : n % 10 = n := by omega
    rw [ha, hb, hc, hd]
    rfl
  · rcases Nat.lt_or_ge n 100 with h100 | h100
    · rw [natDec_eq2 n h10 (by omega)]
      unfold pad4
      have ha : n / 1000 % 10 = 0 := by omega
      have hb : n / 100 % 10 = 0 := by omega
      have hc : n / 10 % 10 = n / 10 := by omega
      rw [ha, hb, hc]
      rfl
    · rcases Nat.lt_or_ge n 1000 with h1000 | h1000
      · rw [natDec_eq3 n h100 (by omega)]
        unfold pad4
        have ha : n / 1000 % 10 = 0 := by omega
        have hb : n / 100 % 10 = n / 100 := by omega
        rw [ha, hb]
        rfl
      · rw [natDec_eq4 n h1000 h]
        unfold pad4
        have ha : n / 1000 % 10 = n / 1000 := by omega
        rw [ha]
        rfl

theorem pyFmtW_sdigits (w : Nat) (v : Int) :
    sdigitsB (pyFmtW w v).data = true := by
  unfold pyFmtW
  split
  · show sdigitsB ('-' :: (List.replicate (w - 1 - (natDec v.natAbs).length) '0'
      ++ natDec v.natAbs)) = true
    rw [sdigitsB_cons, if_pos rfl]
    simp only [Bool.and_eq_true, Bool.not_eq_true', List.all_eq_true]
    constructor
    · simp [natDec_ne_nil]
    · intro c hc
      rcases List.mem_append.mp hc with hc | hc
      · rw [List.eq_of_mem_replicate hc]; decide
      · exact natDec_digits _ c hc
  · show sdigitsB (List.replicate (w - (natDec v.natAbs).length) '0'
      ++ natDec v.natAbs) = true
    apply sdigitsB_of_digits
    · simp [natDec_ne_nil]
    · intro c hc
      rcases List.mem_append.mp hc with hc | hc
      · rw [List.eq_of_mem_replicate hc]; decide
      · exact natDec_digits _ c hc

theorem pyFmtW2_shape (v : Int) (hlo : -9 ≤ v) (hhi : v ≤ 99) :
    ∃ a b, (pyFmtW 2 v).data = [a, b] ∧ (a.isDigit = true ∨ a = '-') ∧
      b.isDigit = true := by
  rcases Int.lt_or_le v 0 with hneg | hpos
  · have hrw : pyFmtW 2 v
        = ⟨'-' :: (List.replicate (2 - 1 - (natDec v.natAbs).length) '0'
          ++ natDec v.natAbs)⟩ := by
      unfold pyFmtW
      rw [if_pos hneg]
    have habs1 : 1 ≤ v.natAbs := by omega
    have habs9 : v.natAbs ≤ 9 := by omega
    rw [hrw, natDec_eq1 v.natAbs habs9]
    refine ⟨'-', Nat.digitChar v.natAbs, ?_, Or.inr rfl, ?_⟩
    · simp
    · have := digitChar_mod10_isDigit v.natAbs
      rwa [Nat.mod_eq_of_lt (by omega)] at this
  · have hv : ((v.toNat : Int)) = v := Int.toNat_of_nonneg hpos
    have hle : v.toNat ≤ 99 := by omega
    rw [← hv, pyFmtW2_eq_pad2 v.toNat hle]
    exact ⟨_, _, pad2_data v.toNat, Or.inl (digitChar_mod10_isDigit _),
      digitChar_mod10_isDigit _⟩

theorem fmtOut_data (m d y hh mi : Nat) :
    (fmtOut m d y hh mi).data =
      [Nat.digitChar (m / 10 % 10), Nat.digitChar (m % 10), '-',
       Nat.digitChar (d / 10 % 10), Nat.digitChar (d % 10), '-'] ++ natDec y ++
      [' ', Nat.digitChar (hh / 10 % 10), Nat.digitChar (hh % 10), ':',
       Nat.digitChar (mi / 10 % 10), Nat.digitChar (mi % 10)] := by
  simp [fmtOut, pad2, String.data_append]

theorem fmtOutD_data (m d y hh mm : Int) :
    (fmtOutD m d y hh mm).data =
      (pyFmtW 2 m).data ++ '-' :: ((pyFmtW 2 d).data ++ '-' ::
        ((pyFmtW 4 y).data ++ ' ' :: ((pyFmtW 2 hh).data ++ ':' ::
          (pyFmtW 2 mm).data))) := by
  simp [fmtOutD, String.data_append]

theorem isTimeTokL_build (htok mtok : List Char) (hht : sdigitsB htok = true)
    (hmt : sdigitsB mtok = true) : isTimeTokL (htok ++ ':' :: mtok) = true := by
  unfold isTimeTokL
  rw [takeWhile_append_all _ htok _ (sdigitsB_bne_colon htok hht),
    dropWhile_append_all _ htok _ (sdigitsB_bne_colon htok hht)]
  have hcol : ((':' :: mtok).takeWhile fun x => x != ':') = [] := by
    simp [List.takeWhile_cons]
  have hcol2 : ((':' :: mtok).dropWhile fun x => x != ':') = ':' :: mtok := by
    simp [List.dropWhile_cons]
  rw [hcol, hcol2, List.append_nil]
  simp [hht, hmt]

theorem isDatePartShapeL_cons (a b s1 c d s2 : Char) (rest : List Char) :
    isDatePartShapeL (a :: b :: s1 :: c :: d :: s2 :: rest)
      = ((a.isDigit || a = '-') && b.isDigit && s1 = '-' &&
          (c.isDigit || c = '-') && d.isDigit && s2 = '-' &&
          sdigitsB rest) := rfl

theorem isDateTimeShapeL_cons (a b s1 c d s2 : Char) (rest : List Char) :
    isDateTimeShapeL (a :: b :: s1 :: c :: d :: s2 :: rest)
      = ((a.isDigit || a = '-') && b.isDigit && s1 = '-' &&
          (c.isDigit || c = '-') && d.isDigit && s2 = '-' &&
          sdigitsB (rest.takeWhile (fun x => x != ' ')) &&
          match rest.dropWhile (fun x => x != ' ') with
          | ' ' :: tm => isTimeTokL tm
          | _ => false) := rfl

theorem isDatePartShape_spec (s : String) (h : isDatePartShape s = true) :
    ∃ a b c d rest, s.data = a :: b :: '-' :: c :: d :: '-' :: rest ∧
      (a.isDigit = true ∨ a = '-') ∧ b.isDigit = true ∧
      (c.isDigit = true ∨ c = '-') ∧ d.isDigit = true ∧ sdigitsB rest = true := by
  unfold isDatePartShape isDatePartShapeL at h
  split at h
  · rename_i a b s1 c d s2 rest heq
    simp only [Bool.and_eq_true, Bool.or_eq_true, decide_eq_true_eq] at h
    obtain ⟨⟨⟨⟨⟨⟨hA, hB⟩, hs1⟩, hC⟩, hD⟩, hs2⟩, hrest⟩ := h
    subst hs1
    subst hs2
    exact ⟨a, b, c, d, rest, heq, hA, hB, hC, hD, hrest⟩
  · exact absurd h (by simp)

theorem isDateTimeShape_of_parts (a b c d : Char) (yr tm : List Char)
    (ha : a.isDigit = true ∨ a = '-') (hb : b.isDigit = true)
    (hc : c.isDigit = true ∨ c = '-') (hd : d.isDigit = true)
    (hyr : sdigitsB yr = true) (htm : isTimeTokL tm = true) :
    isDateTimeShapeL (a :: b :: '-' :: c :: d :: '-' :: (yr ++ ' ' :: tm))
      = true := by
  rw [isDateTimeShapeL_cons]
  rw [takeWhile_append_all _ yr _ (sdigitsB_bne_space yr hyr),
    dropWhile_append_all _ yr _ (sdigitsB_bne_space yr hyr)]
  have hsp : ((' ' :: tm).takeWhile fun x => x != ' ') = [] := by
    simp [List.takeWhile_cons]
  have hsp2 : ((' ' :: tm).dropWhile fun x => x != ' ') = ' ' :: tm := by
    simp [List.dropWhile_cons]
  rw [hsp, hsp2, List.append_nil]
  rcases ha with ha | ha <;> rcases hc with hc | hc <;>
    simp [ha, hb, hc, hd, hyr, htm]

theorem isDateTimeShape_build (dps tm : String)
    (hdp : isDatePartShape dps = true) (htm : isTimeTokL tm.data = true) :
    isDateTimeShape (dps ++ " " ++ tm) = true := by
  obtain ⟨a, b, c, d, rest, hdata, ha, hb, hc, hd, hrest⟩ :=
    isDatePartShape_spec dps hdp
  have hcat : (dps ++ " " ++ tm).data
      = a :: b :: '-' :: c :: d :: '-' :: (rest ++ ' ' :: tm.data) := by
    simp [String.data_append, hdata]
  unfold isDateTimeShape
  rw [hcat]
  exact isDateTimeShape_of_parts a b c d rest tm.data ha hb hc hd hrest htm

theorem isDateTimeShape_fmtOut (m d y hh mi : Nat) :
    isDateTimeShape (fmtOut m d y hh mi) = true := by
  unfold isDateTimeShape
  rw [fmtOut_data]
  have hrw : ([Nat.digitChar (m / 10 % 10), Nat.digitChar (m % 10), '-',
        Nat.digitChar (d / 10 % 10), Nat.digitChar (d % 10), '-'] ++ natDec y ++
      [' ', Nat.digitChar (hh / 10 % 10), Nat.digitChar (hh % 10), ':',
       Nat.digitChar (mi / 10 % 10), Nat.digitChar (mi % 10)])
      = Nat.digitChar (m / 10 % 10) :: Nat.digitChar (m % 10) :: '-' ::
        Nat.digitChar (d / 10 % 10) :: Nat.digitChar (d % 10) :: '-' ::
        (natDec y ++ ' ' ::
          ([Nat.digitChar (hh / 10 % 10), Nat.digitChar (hh % 10)] ++ ':' ::
            [Nat.digitChar (mi / 10 % 10), Nat.digitChar (mi % 10)])) := by
    simp
  rw [hrw]
  apply isDateTimeShape_of_parts
  · exact Or.inl (digitChar_mod10_isDigit _)
  · exact digitChar_mod10_isDigit _
  · exact Or.inl (digitChar_mod10_isDigit _)
  · exact digitChar_mod10_isDigit _
  · exact sdigitsB_of_digits _ (natDec_ne_nil y) (natDec_digits y)
  · exact isTimeTokL_build _ _
      (sdigitsB_two _ _ (digitChar_mod10_isDigit _) (digitChar_mod10_isDigit _))
      (sdigitsB_two _ _ (digitChar_mod10_isDigit _) (digitChar_mod10_isDigit _))

theorem isDateTimeShape_fmtOutD (m d y hh mm : Int)
    (hm1 : -9 ≤ m) (hm2 : m ≤ 99) (hd1 : -9 ≤ d) (hd2 : d ≤ 99) :
    isDateTimeShape (fmtOutD m d y hh mm) = true := by
  obtain ⟨a1, b1, hmdata, ha1, hb1⟩ := pyFmtW2_shape m hm1 hm2
  obtain ⟨c1, d1, hddata, hc1, hd1'⟩ := pyFmtW2_shape d hd1 hd2
  unfold isDateTimeShape
  rw [fmtOutD_data, hmdata, hddata]
  have hrw : ([a1, b1] ++ '-' :: ([c1, d1] ++ '-' ::
        ((pyFmtW 4 y).data ++ ' ' :: ((pyFmtW 2 hh).data ++ ':' ::
          (pyFmtW 2 mm).data))))
      = a1 :: b1 :: '-' :: c1 :: d1 :: '-' ::
        ((pyFmtW 4 y).data ++ ' ' :: ((pyFmtW 2 hh).data ++ ':' ::
          (pyFmtW 2 mm).data)) := by
    simp
  rw [hrw]
  exact isDateTimeShape_of_parts a1 b1 c1 d1 _ _ ha1 hb1 hc1 hd1'
    (pyFmtW_sdigits 4 y)
    (isTimeTokL_build _ _ (pyFmtW_sdigits 2 hh) (pyFmtW_sdigits 2 mm))

theorem datePart_of_parts (a b c d : Char) (yr tl : List Char) (s : String)
    (hdata : s.data = a :: b :: '-' :: c :: d :: '-' :: (yr ++ ' ' :: tl))
    (ha : a.isDigit = true ∨ a = '-') (hb : b.isDigit = true)
    (hc : c.isDigit = true ∨ c = '-') (hd : d.isDigit = true)
    (hyr : sdigitsB yr = true) :
    (datePart s).data = a :: b :: '-' :: c :: d :: '-' :: yr := by
  have hadash : isPySpace a = false := by
    rcases ha with h1 | h1
    · exact isDigit_isPySpace_false _ h1
    · subst h1; decide
  have hcdash : isPySpace c = false := by
    rcases hc with h1 | h1
    · exact isDigit_isPySpace_false _ h1
    · subst h1; decide
  have hnospace : ∀ x ∈ [a, b, '-', c, d, '-'], isPySpace x = false := by
    intro x hx
    simp only [List.mem_cons, List.not_mem_nil, or_false] at hx
    rcases hx with rfl | rfl | rfl | rfl | rfl | rfl
    · exact hadash
    · exact isDigit_isPySpace_false _ hb
    · decide
    · exact hcdash
    · exact isDigit_isPySpace_false _ hd
    · decide
  unfold datePart
  rw [hdata]
  have hdw : ((a :: b :: '-' :: c :: d :: '-' :: (yr ++ ' ' :: tl)).dropWhile
      isPySpace) = a :: b :: '-' :: c :: d :: '-' :: (yr ++ ' ' :: tl) := by
    simp [List.dropWhile_cons, hnospace a (by simp)]
  rw [hdw]
  show (List.takeWhile (fun x => !isPySpace x)
      ([a, b, '-', c, d, '-'] ++ (yr ++ ' ' :: tl)))
    = [a, b, '-', c, d, '-'] ++ yr
  rw [takeWhile_append_all _ [a, b, '-', c, d, '-'] _
    (fun x hx => by rw [hnospace x hx]; rfl)]
  rw [takeWhile_append_all _ yr _
    (fun x hx => by rw [sdigitsB_not_space yr hyr x hx]; rfl)]
  have hsp : ((' ' :: tl).takeWhile fun x => !isPySpace x) = [] := by
    simp [List.takeWhile_cons, isPySpace]
  rw [hsp, List.append_nil]

theorem isDatePartShape_of_parts (a b c d : Char) (yr : List Char)
    (ha : a.isDigit = true ∨ a = '-') (hb : b.isDigit = true)
    (hc : c.isDigit = true ∨ c = '-') (hd : d.isDigit = true)
    (hyr : sdigitsB yr = true) :
    isDatePartShapeL (a :: b :: '-' :: c :: d :: '-' :: yr) = true := by
  rw [isDatePartShapeL_cons]
  rcases ha with h1 | h1 <;> rcases hc with h2 | h2 <;>
    simp [h1, h2, hb, hd, hyr]

theorem isDatePartShape_datePart_fmtOut (m d y hh mi : Nat) :
    isDatePartShape (datePart (fmtOut m d y hh mi)) = true := by
  have hdata : (fmtOut m d y hh mi).data
      = Nat.digitChar (m / 10 % 10) :: Nat.digitChar (m % 10) :: '-' ::
        Nat.digitChar (d / 10 % 10) :: Nat.digitChar (d % 10) :: '-' ::
        (natDec y ++ ' ' ::
          [Nat.digitChar (hh / 10 % 10), Nat.digitChar (hh % 10), ':',
           Nat.digitChar (mi / 10 % 10), Nat.digitChar (mi % 10)]) := by
    rw [fmtOut_data]
    simp
  have hdp := datePart_of_parts _ _ _ _ _ _ _ hdata
    (Or.inl (digitChar_mod10_isDigit _)) (digitChar_mod10_isDigit _)
    (Or.inl (digitChar_mod10_isDigit _)) (digitChar_mod10_isDigit _)
    (sdigitsB_of_digits _ (natDec_ne_nil y) (natDec_digits y))
  unfold isDatePartShape
  rw [hdp]
  exact isDatePartShape_of_parts _ _ _ _ _
    (Or.inl (digitChar_mod10_isDigit _)) (digitChar_mod10_isDigit _)
    (Or.inl (digitChar_mod10_isDigit _)) (digitChar_mod10_isDigit _)
    (sdigitsB_of_digits _ (natDec_ne_nil y) (natDec_digits y))

theorem isDatePartShape_datePart_fmtOutD (m d y hh mm : Int)
    (hm1 : -9 ≤ m) (hm2 : m ≤ 99) (hd1 : -9 ≤ d) (hd2 : d ≤ 99) :
    isDatePartShape (datePart (fmtOutD m d y hh mm)) = true := by
  obtain ⟨a1, b1, hmdata, ha1, hb1⟩ := pyFmtW2_shape m hm1 hm2
  obtain ⟨c1, d1, hddata, hc1, hd1'⟩ := pyFmtW2_shape d hd1 hd2
  have hdata : (fmtOutD m d y hh mm).data
      = a1 :: b1 :: '-' :: c1 :: d1 :: '-' ::
        ((pyFmtW 4 y).data ++ ' ' :: ((pyFmtW 2 hh).data ++ ':' ::
          (pyFmtW 2 mm).data)) := by
    rw [fmtOutD_data, hmdata, hddata]
    simp
  have hdp := datePart_of_parts _ _ _ _ _ _ _ hdata ha1 hb1 hc1 hd1'
    (pyFmtW_sdigits 4 y)
  unfold isDatePartShape
  rw [hdp]
  exact isDatePartShape_of_parts _ _ _ _ _ ha1 hb1 hc1 hd1'
    (pyFmtW_sdigits 4 y)

theorem findSome?_eq_some_ex {α β : Type} (f : α → Option β) :
    ∀ (l : List α) (b : β), l.findSome? f = some b → ∃ a ∈ l, f a = some b := by
  intro l
  induction l with
  | nil => intro b h; simp [List.findSome?] at h
  | cons x xs ih =>
    intro b h
    rw [List.findSome?] at h
    cases hx : f x with
    | some v =>
      rw [hx] at h
      exact ⟨x, by simp, by rw [hx]; exact h⟩
    | none =>
      rw [hx] at h
      obtain ⟨a, ha, hfa⟩ := ih b h
      exact ⟨a, by simp [ha], hfa⟩

theorem trimChars_length_le (cs : List Char) :
    (trimChars cs).length ≤ cs.length := by
  unfold trimChars
  calc ((cs.dropWhile isPySpace).reverse.dropWhile isPySpace).reverse.length
      = ((cs.dropWhile isPySpace).reverse.dropWhile isPySpace).length := by
        simp
    _ ≤ (cs.dropWhile isPySpace).reverse.length :=
        (List.dropWhile_sublist isPySpace).length_le
    _ = (cs.dropWhile isPySpace).length := by simp
    _ ≤ cs.length := (List.dropWhile_sublist isPySpace).length_le

theorem parseDigitsU_lt :
    ∀ (cs : List Char) (acc : Nat) (b : Bool) (n : Nat),
      parseDigitsU acc b cs = some n → n < (acc + 1) * 10 ^ cs.length := by
  intro cs
  induction cs with
  | nil =>
    intro acc b n h
    unfold parseDigitsU at h
    split at h
    · exact absurd h (by simp)
    · injection h with h1
      subst h1
      simp
  | cons c rest ih =>
    intro acc b n h
    unfold parseDigitsU at h
    split_ifs at h with h1 h2
    · have hb := ih _ _ _ h
      have hdv : digitVal c ≤ 9 := digitVal_le9 c h1
      have hpow : 10 ^ (c :: rest).length = 10 ^ rest.length * 10 := by
        simp [List.length_cons, pow_succ]
      rw [hpow]
      have hstep : (10 * acc + digitVal c + 1) ≤ (acc + 1) * 10 := by omega
      calc n < (10 * acc + digitVal c + 1) * 10 ^ rest.length := hb
        _ ≤ (acc + 1) * 10 * 10 ^ rest.length :=
            Nat.mul_le_mul_right _ hstep
        _ = (acc + 1) * (10 ^ rest.length * 10) := by ring
    · have hb := ih _ _ _ h
      have hpow : 10 ^ (c :: rest).length = 10 ^ rest.length * 10 := by
        simp [List.length_cons, pow_succ]
      rw [hpow]
      calc n < (acc + 1) * 10 ^ rest.length := hb
        _ ≤ (acc + 1) * (10 ^ rest.length * 10) := by
            apply Nat.mul_le_mul_left
            omega

theorem parsePyInt_bounds2 (cs : List Char) (hlen : cs.length ≤ 2) (v : Int)
    (h : parsePyInt cs = some v) : -9 ≤ v ∧ v ≤ 99 := by
  have htl : (trimChars cs).length ≤ 2 :=
    le_trans (trimChars_length_le cs) hlen
  unfold parsePyInt at h
  split at h
  · rename_i c rest heq
    have hrl : rest.length = 0 := by
      have := congrArg List.length heq
      simp only [List.length_cons] at this
      omega
    have hrn : rest = [] := List.length_eq_zero.mp hrl
    subst hrn
    split_ifs at h with h1
    have hp : parseDigitsU (digitVal c) false [] = some (digitVal c) := rfl
    rw [hp] at h
    simp at h
    have hdv : digitVal c ≤ 9 := digitVal_le9 c h1
    omega
  · rename_i c rest heq
    have hrl : rest.length = 0 := by
      have := congrArg List.length heq
      simp only [List.length_cons] at this
      omega
    have hrn : rest = [] := List.length_eq_zero.mp hrl
    subst hrn
    split_ifs at h with h1
    have hp : parseDigitsU (digitVal c) false [] = some (digitVal c) := rfl
    rw [hp] at h
    simp at h
    have hdv : digitVal c ≤ 9 := digitVal_le9 c h1
    omega
  · rename_i c rest hne1 hne2 heq
    have hrl : rest.length ≤ 1 := by
      have := congrArg List.length heq
      simp only [List.length_cons] at this
      omega
    split_ifs at h with h1
    cases hp : parseDigitsU (digitVal c) false rest with
    | none => rw [hp] at h; exact absurd h (by simp)
    | some n =>
      rw [hp] at h
      simp at h
      have hlt := parseDigitsU_lt rest (digitVal c) false n hp
      have hdv : digitVal c ≤ 9 := digitVal_le9 c h1
      have hpb : (10 : Nat) ^ rest.length ≤ 10 := by
        rcases Nat.le_one_iff_eq_zero_or_eq_one.mp hrl with h0 | h0 <;>
          rw [h0] <;> simp
      have hn : n ≤ 99 := by
        have := Nat.lt_of_lt_of_le hlt
          (Nat.mul_le_mul_left (digitVal c + 1) hpb)
        have h2 : (digitVal c + 1) * 10 ≤ 100 := by omega
        omega
      omega
  · exact absurd h (by simp)

theorem pdfDBranch_form (cs : List Char) (r : String)
    (h : pdfDBranch cs = some r) :
    ∃ m d y hh mi : Int, (-9 ≤ m ∧ m ≤ 99) ∧ (-9 ≤ d ∧ d ≤ 99) ∧
      r = fmtOutD m d y hh mi := by
  unfold pdfDBranch at h
  split at h
  · exact absurd h (by simp)
  · rename_i y hy
    split at h
    · exact absurd h (by simp)
    · rename_i m hm
      split at h
      · exact absurd h (by simp)
      · rename_i d hd
        split at h
        · exact absurd h (by simp)
        · rename_i hh hhh
          split at h
          · exact absurd h (by simp)
          · rename_i mi hmi
            injection h with h1
            have hmb := parsePyInt_bounds2 ((cs.drop 6).take 2)
              (List.length_take_le 2 _) m hm
            have hdb := parsePyInt_bounds2 ((cs.drop 8).take 2)
              (List.length_take_le 2 _) d hd
            exact ⟨m, d, y, hh, mi, hmb, hdb, h1.symm⟩

theorem strptimeList_form (cs : List Char) (r : String)
    (h : strptimeList cs = some r) : ∃ m d y hh mi, r = fmtOut m d y hh mi := by
  obtain ⟨f, -, hr⟩ := findSome?_eq_some_ex _ _ _ h
  cases hdt : strptimeOne f cs with
  | none => rw [hdt] at hr; simp at hr
  | some dt =>
    rw [hdt] at hr
    simp only [Option.map_some', Option.some.injEq] at hr
    exact ⟨dt.month, dt.day, dt.year, dt.hour, dt.minute, hr.symm⟩

theorem parsePdfDate_form (s r : String) (h : parsePdfDate s = some r) :
    (∃ m d y hh mi : Nat, r = fmtOut m d y hh mi) ∨
      (∃ m d y hh mi : Int, (-9 ≤ m ∧ m ≤ 99) ∧ (-9 ≤ d ∧ d ≤ 99) ∧
        r = fmtOutD m d y hh mi) := by
  unfold parsePdfDate at h
  split at h
  · exact absurd h (by simp)
  · split at h
    · cases hd : pdfDBranch (trimChars s.data) with
      | some v =>
        rw [hd] at h
        exact Or.inr (pdfDBranch_form _ _ (by rw [hd]; exact h))
      | none => rw [hd] at h; exact Or.inl (strptimeList_form _ _ h)
    · exact Or.inl (strptimeList_form _ _ h)

theorem parsePdfDate_datePart_shape (s r : String) (h : parsePdfDate s = some r) :
    isDatePartShape (datePart r) = true := by
  rcases parsePdfDate_form s r h with ⟨m, d, y, hh, mi, hr⟩ |
      ⟨m, d, y, hh, mi, hmb, hdb, hr⟩
  · rw [hr]; exact isDatePartShape_datePart_fmtOut m d y hh mi
  · rw [hr]
    exact isDatePartShape_datePart_fmtOutD m d y hh mi hmb.1 hmb.2 hdb.1 hdb.2

theorem hmSplit_shape (cs m rest : List Char) (h : hmSplit cs = some (m, rest)) :
    (∃ a b c d : Char, m = [a, b, ':', c, d] ∧ a.isDigit ∧ b.isDigit ∧
        c.isDigit ∧ d.isDigit) ∨
      (∃ a c d : Char, m = [a, ':', c, d] ∧ a.isDigit ∧ c.isDigit ∧ d.isDigit) := by
  unfold hmSplit at h
  split at h
  · rename_i a b c d e rest2
    split at h
    · rename_i hg
      simp only [Bool.and_eq_true, decide_eq_true_eq] at hg
      obtain ⟨⟨⟨⟨ha, hb⟩, hc⟩, hd⟩, he⟩ := hg
      injection h with h1
      injection h1 with hm hrest
      subst hc
      exact Or.inl ⟨a, b, d, e, hm.symm, ha, hb, hd, he⟩
    · split at h
      · rename_i hg
        simp only [Bool.and_eq_true, decide_eq_true_eq] at hg
        obtain ⟨⟨⟨ha, hb⟩, hc⟩, hd⟩ := hg
        injection h with h1
        injection h1 with hm hrest
        subst hb
        exact Or.inr ⟨a, c, d, hm.symm, ha, hc, hd⟩
      · exact absurd h (by simp)
  · rename_i a b c d
    split at h
    · rename_i hg
      simp only [Bool.and_eq_true, decide_eq_true_eq] at hg
      obtain ⟨⟨⟨ha, hb⟩, hc⟩, hd⟩ := hg
      injection h with h1
      injection h1 with hm hrest
      subst hb
      exact Or.inr ⟨a, c, d, hm.symm, ha, hc, hd⟩
    · exact absurd h (by simp)
  · exact absurd h (by simp)

theorem extractHMChars_shape :
    ∀ (cs m : List Char), extractHMChars cs = some m →
      (∃ a b c d : Char, m = [a, b, ':', c, d] ∧ a.isDigit ∧ b.isDigit ∧
          c.isDigit ∧ d.isDigit) ∨
        (∃ a c d : Char, m = [a, ':', c, d] ∧ a.isDigit ∧ c.isDigit ∧ d.isDigit) := by
  intro cs
  induction cs with
  | nil => intro m h; simp [extractHMChars] at h
  | cons c cs ih =>
    intro m h
    rw [extractHMChars] at h
    cases hs : hmSplit (c :: cs) with
    | some p =>
      rw [hs] at h
      injection h with h1
      exact h1 ▸ hmSplit_shape _ p.1 p.2 (by rw [hs])
    | none => rw [hs] at h; exact ih m h

theorem extractHM_shape (s t : String) (h : extractHM s = some t) :
    (∃ a b c d : Char, t.data = [a, b, ':', c, d] ∧ a.isDigit ∧ b.isDigit ∧
        c.isDigit ∧ d.isDigit) ∨
      (∃ a c d : Char, t.data = [a, ':', c, d] ∧ a.isDigit ∧ c.isDigit ∧ d.isDigit) := by
  unfold extractHM at h
  cases hm : extractHMChars s.data with
  | none => rw [hm] at h; simp at h
  | some m =>
    rw [hm] at h
    simp only [Option.map_some', Option.some.injEq] at h
    have hd : t.data = m := by rw [← h]
    exact hd ▸ extractHMChars_shape _ m hm

theorem isTimeShape_spec (s : String) (h : isTimeShape s = true) :
    ∃ i j p q : Char,
      s.data = [i, j, ':', p, q] ∧ i.isDigit ∧ j.isDigit ∧ p.isDigit ∧
        q.isDigit := by
  unfold isTimeShape isTimeShapeL at h
  split at h
  · rename_i i j p q heq
    simp only [Bool.and_eq_true] at h
    exact ⟨i, j, p, q, heq, h.1.1.1, h.1.1.2, h.1.2, h.2⟩
  · exact absurd h (by simp)

theorem isTimeTok_of_isTimeShape (tp : String) (h : isTimeShape tp = true) :
    isTimeTokL tp.data = true := by
  obtain ⟨i, j, p, q, hdata, hi, hj, hp, hq⟩ := isTimeShape_spec tp h
  rw [hdata]
  show isTimeTokL ([i, j] ++ ':' :: [p, q]) = true
  exact isTimeTokL_build _ _ (sdigitsB_two _ _ hi hj) (sdigitsB_two _ _ hp hq)

/-- The result of appending an extracted `H:MM` or `HH:MM` time to a
well-shaped date part has the emitted date-time shape. -/
theorem isDateTimeShape_dp_extract (dps t : String)
    (hd : isDatePartShape dps = true)
    (ht : (∃ a b c d : Char, t.data = [a, b, ':', c, d] ∧ a.isDigit ∧
        b.isDigit ∧ c.isDigit ∧ d.isDigit) ∨
      (∃ a c d : Char, t.data = [a, ':', c, d] ∧ a.isDigit ∧ c.isDigit ∧
        d.isDigit)) :
    isDateTimeShape (dps ++ " " ++ t) = true := by
  apply isDateTimeShape_build dps t hd
  rcases ht with ⟨a, b, c, d, htdata, ha, hb, hc, hdd⟩ |
      ⟨a, c, d, htdata, ha, hc, hdd⟩
  · rw [htdata]
    show isTimeTokL ([a, b] ++ ':' :: [c, d]) = true
    exact isTimeTokL_build _ _ (sdigitsB_two _ _ ha hb) (sdigitsB_two _ _ hc hdd)
  · rw [htdata]
    show isTimeTokL ([a] ++ ':' :: [c, d]) = true
    exact isTimeTokL_build _ _ (sdigitsB_one _ ha) (sdigitsB_two _ _ hc hdd)

theorem combineWithPrev_shape (prev : Option String) (rv c : String)
    (h : combineWithPrev prev rv = some c) :
    isDateTimeShape c = true := by
  unfold combineWithPrev at h
  split at h
  · rename_i p
    cases hp : parsePdfDate p with
    | none => rw [hp] at h; simp at h
    | some parsed =>
      rw [hp] at h
      cases hhm : extractHM rv with
      | none => rw [hhm] at h; simp at h
      | some t =>
        rw [hhm] at h
        simp only [Option.map_some', Option.some.injEq] at h
        rw [← h]
        exact isDateTimeShape_dp_extract _ t
          (parsePdfDate_datePart_shape _ _ hp) (extractHM_shape rv t hhm)
  · simp at h

theorem combineWithNext_shape (rv : String) (n : List String) (c : String)
    (h : (combineWithNext rv n).1 = some c) :
    isDateTimeShape c = true := by
  unfold combineWithNext at h
  split at h
  · cases hp : parsePdfDate rv with
    | none => rw [hp] at h; simp at h
    | some parsed =>
      rw [hp] at h
      cases hhm : extractHM (n.getD 6 "") with
      | none => rw [hhm] at h; simp at h
      | some t =>
        rw [hhm] at h
        have h1 : some (datePart parsed ++ " " ++ t) = some c := h
        injection h1 with h1
        rw [← h1]
        exact isDateTimeShape_dp_extract _ t
          (parsePdfDate_datePart_shape _ _ hp) (extractHM_shape _ t hhm)
  · simp at h

theorem combineStep_shape (prev raw7 : Option String)
    (next : Option (List String)) (c : String)
    (h : (combineStep prev raw7 next).1 = some c) :
    isDateTimeShape c = true := by
  unfold combineStep at h
  split at h
  · rename_i rv
    split at h
    · exact combineWithPrev_shape prev rv c h
    · split at h
      · split at h
        · rename_i n hcond
          exact combineWithNext_shape rv n c h
        · simp at h
      · simp at h
  · simp at h

theorem strptimeTime_shape (f : List Dir) (cs : List Char) (tp : String)
    (h : strptimeTime f cs = some tp) : isTimeShape tp = true := by
  unfold strptimeTime at h
  cases hdt : strptimeOne f cs with
  | none => rw [hdt] at h; simp at h
  | some dt =>
    rw [hdt] at h
    simp only [Option.map_some', Option.some.injEq] at h
    rw [← h]
    simp [isTimeShape, isTimeShapeL, pad2, String.data_append,
      digitChar_mod10_isDigit]

theorem yearAt_shape (cs ys : List Char) (h : yearAt cs = some ys) :
    ∃ a b c d : Char,
      ys = [a, b, c, d] ∧ a.isDigit ∧ b.isDigit ∧ c.isDigit ∧ d.isDigit := by
  unfold yearAt at h
  split at h
  · rename_i a b c d rest
    split at h
    · rename_i hg
      simp only [Bool.and_eq_true, Bool.or_eq_true, decide_eq_true_eq] at hg
      injection h with h1
      subst h1
      refine ⟨a, b, c, d, rfl, ?_, ?_, hg.1.2, hg.2⟩
      · rcases hg.1.1 with ⟨ha, -⟩ | ⟨ha, -⟩ <;> subst ha <;> decide
      · rcases hg.1.1 with ⟨-, hb⟩ | ⟨-, hb⟩ <;> subst hb <;> decide
    · exact absurd h (by simp)
  · exact absurd h (by simp)

theorem searchYearChars_shape :
    ∀ (cs ys : List Char), searchYearChars cs = some ys →
      ∃ a b c d : Char,
        ys = [a, b, c, d] ∧ a.isDigit ∧ b.isDigit ∧ c.isDigit ∧ d.isDigit := by
  intro cs
  induction cs with
  | nil => intro ys h; simp [searchYearChars] at h
  | cons c cs ih =>
    intro ys h
    rw [searchYearChars] at h
    cases hy : yearAt (c :: cs) with
    | some r =>
      rw [hy] at h
      injection h with h1
      subst h1
      exact yearAt_shape _ _ hy
    | none => rw [hy] at h; exact ih ys h

theorem docDatePart_shape (docDate : Option String) (dps : String)
    (h : docDatePart docDate = some dps) : isDatePartShape dps = true := by
  unfold docDatePart at h
  split at h
  · rename_i ds
    split at h
    · simp at h
    · cases hp : parsePdfDate ds with
      | some parsed =>
        rw [hp] at h
        injection h with h1
        rw [← h1]
        exact parsePdfDate_datePart_shape _ _ hp
      | none =>
        rw [hp] at h
        cases hy : searchYearChars ds.data with
        | none => rw [hy] at h; simp at h
        | some ys =>
          rw [hy] at h
          simp only [Option.map_some', Option.some.injEq] at h
          obtain ⟨a, b, c, d, hys, ha, hb, hc, hdd⟩ :=
            searchYearChars_shape _ _ hy
          subst hys
          rw [← h]
          have hcat : (("01-01-" : String) ++ (⟨[a, b, c, d]⟩ : String)).data
              = '0' :: '1' :: '-' :: '0' :: '1' :: '-' :: [a, b, c, d] := by
            simp [String.data_append]
          unfold isDatePartShape
          rw [hcat]
          apply isDatePartShape_of_parts
          · exact Or.inl (by decide)
          · decide
          · exact Or.inl (by decide)
          · decide
          · exact sdigitsB_four _ _ _ _ ha hb hc hdd
  · simp at h

theorem normalizeDateField_shape (s : String) (docDate : Option String)
    (v : String) (h : normalizeDateField s docDate = some v) :
    isDateTimeShape v = true ∨ isTimeShape v = true := by
  unfold normalizeDateField at h
  split at h
  · simp at h
  · split at h
    · cases htp : timeFmts.findSome? (fun f => strptimeTime f (strip s).data) with
      | none => rw [htp] at h; simp at h
      | some tp =>
        rw [htp] at h
        obtain ⟨f, -, hf⟩ := findSome?_eq_some_ex _ _ _ htp
        have htps := strptimeTime_shape f _ tp hf
        cases hdp : docDatePart docDate with
        | some dps =>
          rw [hdp] at h
          injection h with h1
          rw [← h1]
          exact Or.inl (isDateTimeShape_build dps tp
            (docDatePart_shape _ _ hdp) (isTimeTok_of_isTimeShape tp htps))
        | none =>
          rw [hdp] at h
          injection h with h1
          rw [← h1]
          exact Or.inr htps
    · rcases parsePdfDate_form _ _ h with ⟨m, d, y, hh, mi, hform⟩ |
          ⟨m, d, y, hh, mi, hmb, hdb, hform⟩
      · rw [hform]
        exact Or.inl (isDateTimeShape_fmtOut m d y hh mi)
      · rw [hform]
        exact Or.inl (isDateTimeShape_fmtOutD m d y hh mi hmb.1 hmb.2
          hdb.1 hdb.2)

theorem normalizeCombineO_shape (o docDate : Option String) (v : String)
    (h : normalizeCombineO o docDate = some v) :
    isDateTimeShape v = true ∨ isTimeShape v = true := by
  unfold normalizeCombineO at h
  split at h
  · simp at h
  · exact normalizeDateField_shape _ _ _ h

/-- Every seventh-column value a row step emits is `none` or has one of the
three shapes. -/
theorem stepRow_date_shape (ed : Option String) (ls : LS7)
    (prev : Option String) (raw : List String) (next : Option (List String)) :
    dateShapeOK (stepRow ed ls prev raw next).record.extracted_date = true := by
  have hsev : (stepRow ed ls prev raw next).record.extracted_date
      = (match (combineStep prev
            (if (ffillRow (toRow7 (shapeRowL raw)) ls).c6 ≠ ""
              then some (ffillRow (toRow7 (shapeRowL raw)) ls).c6 else none)
            next).1 with
         | some c => some c
         | none => normalizeCombineO
            (if (ffillRow (toRow7 (shapeRowL raw)) ls).c6 ≠ ""
              then some (ffillRow (toRow7 (shapeRowL raw)) ls).c6 else none) ed) := rfl
  rw [hsev]
  cases hc : (combineStep prev
      (if (ffillRow (toRow7 (shapeRowL raw)) ls).c6 ≠ ""
        then some (ffillRow (toRow7 (shapeRowL raw)) ls).c6 else none) next).1 with
  | some c =>
    have h := combineStep_shape _ _ _ _ hc
    simp [dateShapeOK, h]
  | none =>
    cases hn : normalizeCombineO
        (if (ffillRow (toRow7 (shapeRowL raw)) ls).c6 ≠ ""
          then some (ffillRow (toRow7 (shapeRowL raw)) ls).c6 else none) ed with
    | none => simp [dateShapeOK]
    | some v =>
      rcases normalizeCombineO_shape _ _ _ hn with h | h <;>
        simp [dateShapeOK, h]

theorem goAux_date_shape (ed : Option String) :
    ∀ (rest : List (List String)) (cur : List String) (ls : LS7)
      (prev : Option String) (rec : TableData),
      rec ∈ goAux ed cur rest ls prev →
        dateShapeOK rec.extracted_date = true := by
  intro rest
  induction rest with
  | nil =>
    intro cur ls prev rec hmem
    simp only [goAux, List.mem_singleton] at hmem
    rw [hmem]
    exact stepRow_date_shape ed ls prev cur none
  | cons n t ih =>
    intro cur ls prev rec hmem
    simp only [goAux, List.mem_cons] at hmem
    rcases hmem with hmem | hmem
    · rw [hmem]; exact stepRow_date_shape ed ls prev cur (some n)
    · exact ih _ _ _ rec hmem

theorem reconcileRows_date_shape (rows : List (List String))
    (ed : Option String) (rec : TableData) (h : rec ∈ reconcileRows rows ed) :
    dateShapeOK rec.extracted_date = true := by
  unfold reconcileRows at h
  split at h
  · simp at h
  · exact goAux_date_shape ed _ _ _ _ rec h

/-- C2 counterexample: a single-row later table whose seventh cell is the
time-only value `14:30`, with no document-level date, emits
`extracted_date = "14:30"`, which is not of the claimed
`MM-DD-YYYY HH:MM` shape. -/
theorem claim2_counterexample :
    (processTableDF 2 [["a", "b.pdf", "1", "1", "1", "x", "14:30"]] none).map
        (fun rec => rec.extracted_date) = [some "14:30"] ∧
      isFullShape "14:30" = false :=
  ⟨rfl, rfl⟩

/-- C2 (amended): every emitted `extracted_date` is absent, or a bare
normalized `HH:MM` time (time-only cell with no date antecedent), or a
date-time string `<m>-<d>-<y> <h>:<min>` in which the month and day fields
are exactly two characters each (a digit pair, or a minus sign followed by
a digit, the latter produced by negative `D:` slice values), the year is a
nonempty digit run optionally preceded by a minus sign (glibc strftime
prints years below 1000 unpadded, and the `D:` f-string path zero-pads to
four characters including the sign), and the hour and minute are nonempty
optionally-minus-prefixed digit runs (one- or two-character hours from the
cross-row time extraction, two-character zero-padded fields otherwise). -/
theorem claim2_amended_date_shape :
    ∀ (tableIdx : Nat) (rows : List (List String)) (ed : Option String)
      (rec : TableData), rec ∈ processTableDF tableIdx rows ed →
        dateShapeOK rec.extracted_date = true := by
  intro tableIdx rows ed rec hmem
  unfold processTableDF at hmem
  split at hmem
  · exact reconcileRows_date_shape _ _ _ hmem
  · exact reconcileRows_date_shape _ _ _ hmem

/-- Witness for the amended C2 at a concrete record of a concrete table. -/
theorem claim2_amended_date_shape_witness :
    dateShapeOK (TableData.extracted_date
      { document_name := "b.pdf", table_number := some 1, row_number := some 1,
        column_number := some 1, cell_content := "x",
        extracted_date := some "10-01-2026 09:00" }) = true := by
  refine claim2_amended_date_shape 2
    [["a", "b.pdf", "1", "1", "1", "x", "10-01-2026 09:00"]] none _ ?_
  have h : processTableDF 2
      [["a", "b.pdf", "1", "1", "1", "x", "10-01-2026 09:00"]] none
      = [{ document_name := "b.pdf", table_number := some 1,
           row_number := some 1, column_number := some 1, cell_content := "x",
           extracted_date := some "10-01-2026 09:00" }] := rfl
  rw [h]
  exact List.mem_singleton.mpr rfl

/-! Character facts used for the date-parsing contract. -/

theorem digitVal_digitChar (k : Nat) (h : k < 10) :
    digitVal (Nat.digitChar k) = k := by
  interval_cases k <;> decide

theorem dcm_toLower (n : Nat) :
    (Nat.digitChar (n % 10)).toLower = Nat.digitChar (n % 10) := by
  have h : n % 10 < 10 := Nat.mod_lt _ (by norm_num)
  interval_cases h2 : n % 10 <;> decide

theorem dcm_ne_char (n : Nat) (c : Char) (hc : c.isDigit = false) :
    (Nat.digitChar (n % 10) = c) = False := by
  have h : n % 10 < 10 := Nat.mod_lt _ (by norm_num)
  simp only [eq_iff_iff, iff_false]
  intro he
  rw [← he] at hc
  rw [digitChar_mod10_isDigit n] at hc
  exact absurd hc (by decide)

theorem parseNatDigits_pad2 (n : Nat) (h : n ≤ 99) :
    parseNatDigits [Nat.digitChar (n / 10 % 10), Nat.digitChar (n % 10)]
      = some n := by
  unfold parseNatDigits
  have h1 := digitVal_digitChar (n / 10 % 10) (Nat.mod_lt _ (by norm_num))
  have h2 := digitVal_digitChar (n % 10) (Nat.mod_lt _ (by norm_num))
  simp only [digitChar_mod10_isDigit, List.all_cons, List.all_nil,
    Bool.and_true, Bool.and_self, List.isEmpty_cons, Bool.not_false,
    Bool.true_and, if_true, List.foldl, h1, h2, Option.some.injEq]
  omega

theorem parseNatDigits_pad4 (y : Nat) (h : y ≤ 9999) :
    parseNatDigits [Nat.digitChar (y / 1000 % 10), Nat.digitChar (y / 100 % 10),
      Nat.digitChar (y / 10 % 10), Nat.digitChar (y % 10)] = some y := by
  unfold parseNatDigits
  have h1 := digitVal_digitChar (y / 1000 % 10) (Nat.mod_lt _ (by norm_num))
  have h2 := digitVal_digitChar (y / 100 % 10) (Nat.mod_lt _ (by norm_num))
  have h3 := digitVal_digitChar (y / 10 % 10) (Nat.mod_lt _ (by norm_num))
  have h4 := digitVal_digitChar (y % 10) (Nat.mod_lt _ (by norm_num))
  simp only [digitChar_mod10_isDigit, List.all_cons, List.all_nil,
    Bool.and_true, Bool.and_self, List.isEmpty_cons, Bool.not_false,
    Bool.true_and, if_true, List.foldl, h1, h2, h3, h4, Option.some.injEq]
  omega

theorem parseDigitsU_digits :
    ∀ (cs : List Char) (acc : Nat), (∀ c ∈ cs, c.isDigit = true) →
      parseDigitsU acc false cs
        = some (cs.foldl (fun a c => 10 * a + digitVal c) acc) := by
  intro cs
  induction cs with
  | nil => intro acc h; rfl
  | cons c rest ih =>
    intro acc h
    unfold parseDigitsU
    rw [if_pos (h c (by simp))]
    rw [ih _ (fun x hx => h x (by simp [hx]))]
    rw [List.foldl_cons]

theorem parsePyInt_digits (cs : List Char) (h1 : cs ≠ [])
    (h2 : ∀ c ∈ cs, c.isDigit = true) :
    parsePyInt cs = (parseNatDigits cs).map fun n => (n : Int) := by
  have htrim : trimChars cs = cs := by
    unfold trimChars
    have hd : cs.dropWhile isPySpace = cs := by
      cases cs with
      | nil => rfl
      | cons c cs2 =>
        simp [List.dropWhile_cons,
          isDigit_isPySpace_false c (h2 c (by simp))]
    rw [hd]
    have hd2 : cs.reverse.dropWhile isPySpace = cs.reverse := by
      cases hrev : cs.reverse with
      | nil => rfl
      | cons c cs2 =>
        have hc : c ∈ cs := by
          rw [← List.mem_reverse, hrev]; simp
        simp [List.dropWhile_cons, isDigit_isPySpace_false c (h2 c hc)]
    rw [hd2, List.reverse_reverse]
  unfold parsePyInt
  rw [htrim]
  cases cs with
  | nil => exact absurd rfl h1
  | cons c rest =>
    split
    · rename_i c2 rest2 heq
      injection heq with he1 he2
      have := h2 c (by simp)
      rw [he1] at this
      exact absurd this (by decide)
    · rename_i c2 rest2 heq
      injection heq with he1 he2
      have := h2 c (by simp)
      rw [he1] at this
      exact absurd this (by decide)
    · rename_i c2 rest2 hno1 hno2 heq
      injection heq with he1 he2
      subst he1
      subst he2
      rw [if_pos (h2 c (by simp))]
      rw [parseDigitsU_digits rest (digitVal c)
        (fun x hx => h2 x (by simp [hx]))]
      unfold parseNatDigits
      rw [if_pos (by
        simp only [List.isEmpty_cons, Bool.not_false, Bool.true_and,
          List.all_eq_true]
        exact h2)]
      have hz : 10 * 0 + digitVal c = digitVal c := by omega
      rw [List.foldl_cons, hz]
    · rename_i heq
      exact absurd heq (by simp)

theorem parsePyInt_pad2 (n : Nat) (h : n ≤ 99) :
    parsePyInt [Nat.digitChar (n / 10 % 10), Nat.digitChar (n % 10)]
      = some ((n : Int)) := by
  rw [parsePyInt_digits _ (by simp) (by
    intro c hc
    simp only [List.mem_cons, List.not_mem_nil, or_false] at hc
    rcases hc with rfl | rfl <;> exact digitChar_mod10_isDigit _)]
  rw [parseNatDigits_pad2 n h]
  rfl

theorem parsePyInt_pad4 (y : Nat) (h : y ≤ 9999) :
    parsePyInt [Nat.digitChar (y / 1000 % 10), Nat.digitChar (y / 100 % 10),
      Nat.digitChar (y / 10 % 10), Nat.digitChar (y % 10)]
      = some ((y : Int)) := by
  rw [parsePyInt_digits _ (by simp) (by
    intro c hc
    simp only [List.mem_cons, List.not_mem_nil, or_false] at hc
    rcases hc with rfl | rfl | rfl | rfl <;> exact digitChar_mod10_isDigit _)]
  rw [parseNatDigits_pad4 y h]
  rfl

theorem trimChars_eq_self (cs : List Char)
    (h : ∀ c ∈ cs, isPySpace c = false) : trimChars cs = cs := by
  unfold trimChars
  have h2 : cs.dropWhile isPySpace = cs := by
    cases cs with
    | nil => rfl
    | cons c cs2 => simp [List.dropWhile_cons, h c (by simp)]
  rw [h2]
  have h3 : cs.reverse.dropWhile isPySpace = cs.reverse := by
    cases hrev : cs.reverse with
    | nil => rfl
    | cons c cs2 =>
      have hc : c ∈ cs := by
        rw [← List.mem_reverse, hrev]; simp
      simp [List.dropWhile_cons, h c hc]
  rw [h3, List.reverse_reverse]

theorem pdfD_full (y m d hh mi : Nat) (hy : y ≤ 9999) (hm : m ≤ 99)
    (hd : d ≤ 99) (hhh : hh ≤ 99) (hmi : mi ≤ 99) :
    parsePdfDate ("D:" ++ pad4 y ++ pad2 m ++ pad2 d ++ pad2 hh ++ pad2 mi)
      = some (pad2 m ++ "-" ++ pad2 d ++ "-" ++ pad4 y ++ " "
          ++ pad2 hh ++ ":" ++ pad2 mi) := by
  have hdata : ("D:" ++ pad4 y ++ pad2 m ++ pad2 d ++ pad2 hh ++ pad2 mi).data
      = ['D', ':', Nat.digitChar (y / 1000 % 10), Nat.digitChar (y / 100 % 10),
         Nat.digitChar (y / 10 % 10), Nat.digitChar (y % 10),
         Nat.digitChar (m / 10 % 10), Nat.digitChar (m % 10),
         Nat.digitChar (d / 10 % 10), Nat.digitChar (d % 10),
         Nat.digitChar (hh / 10 % 10), Nat.digitChar (hh % 10),
         Nat.digitChar (mi / 10 % 10), Nat.digitChar (mi % 10)] := by
    simp [String.data_append, pad2, pad4]
  have hne : ("D:" ++ pad4 y ++ pad2 m ++ pad2 d ++ pad2 hh ++ pad2 mi) ≠ "" := by
    intro heq
    have hc := congrArg String.data heq
    rw [hdata] at hc
    simp at hc
  have htrim : trimChars
      ("D:" ++ pad4 y ++ pad2 m ++ pad2 d ++ pad2 hh ++ pad2 mi).data
      = ("D:" ++ pad4 y ++ pad2 m ++ pad2 d ++ pad2 hh ++ pad2 mi).data := by
    apply trimChars_eq_self
    intro c hc
    rw [hdata] at hc
    simp only [List.mem_cons, List.not_mem_nil, or_false] at hc
    rcases hc with rfl | rfl | rfl | rfl | rfl | rfl | rfl | rfl | rfl | rfl |
      rfl | rfl | rfl | rfl <;>
      first
        | decide
        | exact digitChar_mod10_not_space _
  unfold parsePdfDate
  rw [if_neg hne, htrim, hdata]
  rw [if_pos (by simp)]
  unfold pdfDBranch
  simp only [List.drop, List.take, List.length_cons, List.length_nil]
  rw [parsePyInt_pad4 y hy, parsePyInt_pad2 m hm, parsePyInt_pad2 d hd]
  norm_num
  rw [parsePyInt_pad2 hh hhh, parsePyInt_pad2 mi hmi]
  show some (fmtOutD ((m : Int)) ((d : Int)) ((y : Int)) ((hh : Int))
      ((mi : Int))) = _
  unfold fmtOutD
  rw [pyFmtW2_eq_pad2 m hm, pyFmtW2_eq_pad2 d hd, pyFmtW4_eq_pad4 y hy,
    pyFmtW2_eq_pad2 hh hhh, pyFmtW2_eq_pad2 mi hmi]

theorem pdfD_short (y m d : Nat) (hy : y ≤ 9999) (hm : m ≤ 99) (hd : d ≤ 99) :
    parsePdfDate ("D:" ++ pad4 y ++ pad2 m ++ pad2 d)
      = some (pad2 m ++ "-" ++ pad2 d ++ "-" ++ pad4 y ++ " "
          ++ pad2 0 ++ ":" ++ pad2 0) := by
  have hdata : ("D:" ++ pad4 y ++ pad2 m ++ pad2 d).data
      = ['D', ':', Nat.digitChar (y / 1000 % 10), Nat.digitChar (y / 100 % 10),
         Nat.digitChar (y / 10 % 10), Nat.digitChar (y % 10),
         Nat.digitChar (m / 10 % 10), Nat.digitChar (m % 10),
         Nat.digitChar (d / 10 % 10), Nat.digitChar (d % 10)] := by
    simp [String.data_append, pad2, pad4]
  have hne : ("D:" ++ pad4 y ++ pad2 m ++ pad2 d) ≠ "" := by
    intro heq
    have hc := congrArg String.data heq
    rw [hdata] at hc
    simp at hc
  have htrim : trimChars ("D:" ++ pad4 y ++ pad2 m ++ pad2 d).data
      = ("D:" ++ pad4 y ++ pad2 m ++ pad2 d).data := by
    apply trimChars_eq_self
    intro c hc
    rw [hdata] at hc
    simp only [List.mem_cons, List.not_mem_nil, or_false] at hc
    rcases hc with rfl | rfl | rfl | rfl | rfl | rfl | rfl | rfl | rfl | rfl <;>
      first
        | decide
        | exact digitChar_mod10_not_space _
  unfold parsePdfDate
  rw [if_neg hne, htrim, hdata]
  rw [if_pos (by simp)]
  unfold pdfDBranch
  simp only [List.drop, List.take, List.length_cons, List.length_nil]
  rw [parsePyInt_pad4 y hy, parsePyInt_pad2 m hm, parsePyInt_pad2 d hd]
  norm_num
  have h0 : pyFmtW 2 (0 : Int) = pad2 0 := by
    have hz := pyFmtW2_eq_pad2 0 (by omega)
    simpa using hz
  unfold fmtOutD
  rw [pyFmtW2_eq_pad2 m hm, pyFmtW2_eq_pad2 d hd, pyFmtW4_eq_pad4 y hy, h0]

theorem splitDigitsMax_dcm4 (k1 k2 k3 k4 : Nat) :
    splitDigitsMax 4 [Nat.digitChar (k1 % 10), Nat.digitChar (k2 % 10),
        Nat.digitChar (k3 % 10), Nat.digitChar (k4 % 10)]
      = ([Nat.digitChar (k1 % 10), Nat.digitChar (k2 % 10),
          Nat.digitChar (k3 % 10), Nat.digitChar (k4 % 10)], []) := by
  simp [splitDigitsMax, digitChar_mod10_isDigit]

theorem splitDigitsMax_dcm2of4 (k1 k2 k3 k4 : Nat) :
    splitDigitsMax 2 [Nat.digitChar (k1 % 10), Nat.digitChar (k2 % 10),
        Nat.digitChar (k3 % 10), Nat.digitChar (k4 % 10)]
      = ([Nat.digitChar (k1 % 10), Nat.digitChar (k2 % 10)],
         [Nat.digitChar (k3 % 10), Nat.digitChar (k4 % 10)]) := by
  simp [splitDigitsMax, digitChar_mod10_isDigit]

theorem parseDirs_Y_lit_none (c : Char) (rest : List Dir) (st : PState)
    (k1 k2 k3 k4 : Nat) :
    parseDirs (.Y :: .lit c :: rest)
      [Nat.digitChar (k1 % 10), Nat.digitChar (k2 % 10),
       Nat.digitChar (k3 % 10), Nat.digitChar (k4 % 10)] st = none := by
  unfold parseDirs numFieldY
  rw [splitDigitsMax_dcm4]
  simp [parseDirs]

theorem parseDirs_Mo_lit_none (c : Char) (hc : c.isDigit = false)
    (rest : List Dir) (st : PState) (k1 k2 k3 k4 : Nat) :
    parseDirs (.Mo :: .lit c :: rest)
      [Nat.digitChar (k1 % 10), Nat.digitChar (k2 % 10),
       Nat.digitChar (k3 % 10), Nat.digitChar (k4 % 10)] st = none := by
  unfold parseDirs numField
  rw [splitDigitsMax_dcm2of4]
  simp only [List.isEmpty_cons, Bool.false_eq_true, if_false]
  split
  · simp [parseDirs, dcm_ne_char _ _ hc]
  · rfl

theorem parseDirs_D_lit_none (c : Char) (hc : c.isDigit = false)
    (rest : List Dir) (st : PState) (k1 k2 k3 k4 : Nat) :
    parseDirs (.D :: .lit c :: rest)
      [Nat.digitChar (k1 % 10), Nat.digitChar (k2 % 10),
       Nat.digitChar (k3 % 10), Nat.digitChar (k4 % 10)] st = none := by
  unfold parseDirs numField
  rw [splitDigitsMax_dcm2of4]
  simp only [List.isEmpty_cons, Bool.false_eq_true, if_false]
  split
  · simp [parseDirs, dcm_ne_char _ _ hc]
  · rfl

theorem parseDirs_D_sp_none (rest : List Dir) (st : PState)
    (k1 k2 k3 k4 : Nat) :
    parseDirs (.D :: .sp :: rest)
      [Nat.digitChar (k1 % 10), Nat.digitChar (k2 % 10),
       Nat.digitChar (k3 % 10), Nat.digitChar (k4 % 10)] st = none := by
  unfold parseDirs numField
  rw [splitDigitsMax_dcm2of4]
  simp only [List.isEmpty_cons, Bool.false_eq_true, if_false]
  split
  · simp [parseDirs, digitChar_mod10_not_space]
  · rfl

theorem matchMonthName_dcm_none (k1 k2 k3 k4 : Nat) :
    matchMonthName [Nat.digitChar (k1 % 10), Nat.digitChar (k2 % 10),
      Nat.digitChar (k3 % 10), Nat.digitChar (k4 % 10)] = none := by
  have hj := dcm_ne_char k1 'j' (by decide)
  have hf := dcm_ne_char k1 'f' (by decide)
  have hm := dcm_ne_char k1 'm' (by decide)
  have ha := dcm_ne_char k1 'a' (by decide)
  have hs := dcm_ne_char k1 's' (by decide)
  have ho := dcm_ne_char k1 'o' (by decide)
  have hn := dcm_ne_char k1 'n' (by decide)
  have hd := dcm_ne_char k1 'd' (by decide)
  unfold matchMonthName monthNames
  simp [List.findSome?, dcm_toLower, hj, hf, hm, ha, hs, ho, hn, hd]

theorem parseDirs_B_none (rest : List Dir) (st : PState) (k1 k2 k3 k4 : Nat) :
    parseDirs (.B :: rest)
      [Nat.digitChar (k1 % 10), Nat.digitChar (k2 % 10),
       Nat.digitChar (k3 % 10), Nat.digitChar (k4 % 10)] st = none := by
  unfold parseDirs
  rw [matchMonthName_dcm_none]
  rfl

theorem strptimeList_dcm4_none (k1 k2 k3 k4 : Nat) :
    strptimeList [Nat.digitChar (k1 % 10), Nat.digitChar (k2 % 10),
      Nat.digitChar (k3 % 10), Nat.digitChar (k4 % 10)] = none := by
  have hdash : ('-' : Char).isDigit = false := by decide
  have hslash : ('/' : Char).isDigit = false := by decide
  unfold strptimeList pyFmts strptimeOne
  simp only [List.findSome?,
    parseDirs_Y_lit_none, parseDirs_Mo_lit_none '-' hdash,
    parseDirs_Mo_lit_none '/' hslash, parseDirs_D_lit_none '/' hslash,
    parseDirs_D_lit_none '-' hdash, parseDirs_D_sp_none, parseDirs_B_none,
    Option.none_bind, Option.map_none']

/-- The resolver never fabricates a date from a bare four-digit year: any
pure four-digit string fails every recognized shape and parses to `none`. -/
theorem parsePdfDate_bare_year (y : Nat) : parsePdfDate (pad4 y) = none := by
  have hne : pad4 y ≠ "" := by
    intro heq
    have hc := congrArg String.data heq
    rw [pad4_data] at hc
    simp at hc
  have htrim : trimChars (pad4 y).data = (pad4 y).data := by
    apply trimChars_eq_self
    intro c hc
    rw [pad4_data] at hc
    simp only [List.mem_cons, List.not_mem_nil, or_false] at hc
    rcases hc with rfl | rfl | rfl | rfl <;> exact digitChar_mod10_not_space _
  unfold parsePdfDate
  rw [if_neg hne, htrim, pad4_data]
  rw [if_neg (by simp [dcm_ne_char _ 'D' (by decide)])]
  exact strptimeList_dcm4_none _ _ _ _

/-- C8 counterexample to "unrecognized values resolve to absent": a
seven-digit `D:` string is not of the recognized `D:YYYYMMDD[HHmm]` shape,
yet the slicing `int` conversions all succeed and fabricate a date with
month 56; a signed year slice likewise parses (Python `int` accepts a
leading minus) and is re-emitted inside the formatted value. -/
theorem claim8_counterexample :
    parsePdfDate "D:1234567" = some "56-07-1234 00:00" ∧
      parsePdfDate "D:-1230101" = some "01-01--123 00:00" := by
  exact ⟨by decide, by decide⟩

/-- C8 (amended): the date-parsing sub-contract, with the unrecognized
clause restricted to what the code does.  `D:YYYYMMDDHHmm` and
`D:YYYYMMDD` values normalize to zero-padded `MM-DD-YYYY HH:MM`
universally over in-range numeric components; each listed
ISO/US/EU/long-form family normalizes to `MM-DD-YYYY HH:MM` with seconds
dropped (exhibited on a representative input per family, including a
below-1000 year printed unpadded by strftime); empty values, strings
matching no recognized format (exhibited), and bare four-digit years
(universally) resolve to absent.  Malformed `D:`-prefixed strings may
still parse by slicing, so no universal absent-on-unrecognized clause is
claimed. -/
theorem claim8_amended_date_contract :
    (∀ y m d hh mi : Nat, y ≤ 9999 → m ≤ 99 → d ≤ 99 → hh ≤ 99 → mi ≤ 99 →
        parsePdfDate ("D:" ++ pad4 y ++ pad2 m ++ pad2 d ++ pad2 hh ++ pad2 mi)
            = some (pad2 m ++ "-" ++ pad2 d ++ "-" ++ pad4 y ++ " "
                ++ pad2 hh ++ ":" ++ pad2 mi) ∧
          parsePdfDate ("D:" ++ pad4 y ++ pad2 m ++ pad2 d)
            = some (pad2 m ++ "-" ++ pad2 d ++ "-" ++ pad4 y ++ " "
                ++ pad2 0 ++ ":" ++ pad2 0)) ∧
      parsePdfDate "2026-10-01 09:30:45" = some "10-01-2026 09:30" ∧
      parsePdfDate "2026-10-01 09:30" = some "10-01-2026 09:30" ∧
      parsePdfDate "2026-10-01" = some "10-01-2026 00:00" ∧
      parsePdfDate "0005-01-02" = some "01-02-5 00:00" ∧
      parsePdfDate "10-01-2026 09:30:45" = some "10-01-2026 09:30" ∧
      parsePdfDate "05/13/2026" = some "05-13-2026 00:00" ∧
      parsePdfDate "13/05/2026" = some "05-13-2026 00:00" ∧
      parsePdfDate "13-05-2026" = some "05-13-2026 00:00" ∧
      parsePdfDate "13 May 2026" = some "05-13-2026 00:00" ∧
      parsePdfDate "May 13, 2026" = some "05-13-2026 00:00" ∧
      (∀ y : Nat, parsePdfDate (pad4 y) = none) ∧
      parsePdfDate "" = none ∧
      parsePdfDate "garbage" = none ∧
      normalizeCombineO none none = none ∧
      normalizeCombineO (some "") none = none :=
  ⟨fun y m d hh mi hy hm hd hhh hmi =>
      ⟨pdfD_full y m d hh mi hy hm hd hhh hmi, pdfD_short y m d hy hm hd⟩,
    rfl, rfl, rfl, by decide, rfl, rfl, rfl, rfl, rfl, rfl,
    parsePdfDate_bare_year, rfl, rfl, rfl, rfl⟩

/-- The amended C8 theorem applied at concrete numeric components. -/
theorem claim8_amended_date_contract_witness :
    parsePdfDate ("D:" ++ pad4 2026 ++ pad2 10 ++ pad2 1 ++ pad2 9 ++ pad2 30)
      = some (pad2 10 ++ "-" ++ pad2 1 ++ "-" ++ pad4 2026 ++ " "
          ++ pad2 9 ++ ":" ++ pad2 30) :=
  (claim8_amended_date_contract.1 2026 10 1 9 30 (by norm_num) (by norm_num)
    (by norm_num) (by norm_num) (by norm_num)).1

theorem mergeRow8_getElem_le5 (r : List String) (q : Nat) (hq : q ≤ 5) :
    (mergeRow8 r)[q]? = r[q]? := by
  unfold mergeRow8
  split
  · rw [List.getElem?_eraseIdx, if_pos (by omega), List.getElem?_set,
      if_neg (by omega)]
  · rfl

theorem mergeRow8_length (r : List String) :
    (mergeRow8 r).length = r.length ∨
      ((mergeRow8 r).length + 1 = r.length ∧ 8 ≤ r.length) := by
  unfold mergeRow8
  split
  · rename_i hcond
    right
    rw [List.length_eraseIdx, List.length_set, if_pos (by omega)]
    omega
  · left; rfl

theorem shapeRowL_getD_le5 (r : List String) (q : Nat) (hq : q ≤ 5) :
    (shapeRowL r).getD q "" = r.getD q "" := by
  unfold shapeRowL
  rw [List.getD_eq_getElem?_getD, List.getD_eq_getElem?_getD,
    List.getElem?_take, if_pos (by omega), List.getElem?_append]
  split
  · rw [mergeRow8_getElem_le5 r q hq]
  · rename_i hge
    push_neg at hge
    rcases mergeRow8_length r with hl | ⟨hl, h8⟩
    · rw [List.getElem?_replicate,
        List.getElem?_eq_none (show r.length ≤ q by omega)]
      split <;> rfl
    · omega

/-- Projections of a row step (all definitional). -/
theorem stepRow_record_name (ed : Option String) (ls : LS7)
    (prev : Option String) (raw : List String) (next : Option (List String)) :
    (stepRow ed ls prev raw next).record.document_name
      = resolveName (ffillRow (toRow7 (shapeRowL raw)) ls).c1 ls.l1 := rfl

theorem stepRow_ls_eq (ed : Option String) (ls : LS7) (prev : Option String)
    (raw : List String) (next : Option (List String)) :
    (stepRow ed ls prev raw next).ls
      = updateLS (ffillRow (toRow7 (shapeRowL raw)) ls) ls := rfl

theorem isDigit_not_space (c : Char) (h : c.isDigit = true) :
    isPySpace c = false := by
  by_contra hb
  simp only [Bool.not_eq_false] at hb
  simp only [isPySpace, Bool.or_eq_true, decide_eq_true_eq] at hb
  rcases hb with ((((h1 | h1) | h1) | h1) | h1) | h1 <;> subst h1 <;> simp at h

theorem validDocName_ne_empty (s : String) (h : validDocName s = true) :
    s ≠ "" := by
  intro he
  subst he
  simp [validDocName] at h

theorem validDocName_not_pureDigits (s : String) (h : validDocName s = true) :
    pureDigits s = false := by
  by_contra hb
  simp only [Bool.not_eq_false] at hb
  unfold pureDigits at hb
  simp only [Bool.and_eq_true, Bool.not_eq_true'] at hb
  obtain ⟨hne, hall⟩ := hb
  have hsne : s ≠ "" := by
    intro he
    subst he
    simp at hne
  have htrim : trimChars s.data = s.data :=
    trimChars_eq_self _ fun c hc =>
      isDigit_not_space c (List.all_eq_true.mp hall c hc)
  have hstrip : strip s = s := by
    unfold strip
    rw [htrim]
  unfold validDocName at h
  rw [if_neg hsne, hstrip, if_pos (by simp [hne, hall])] at h
  exact absurd h (by decide)

theorem stepRow_name_valid (ed : Option String) (ls : LS7)
    (prev : Option String) (raw : List String) (next : Option (List String))
    (v : String) (hv : ls.l1 = some v) (hne : v ≠ "")
    (hval : validDocName v = true) :
    validDocName (stepRow ed ls prev raw next).record.document_name = true := by
  rw [stepRow_record_name]
  unfold resolveName
  split
  · assumption
  · rw [hv]
    simp only
    rw [if_pos ⟨hne, hval⟩]
    exact hval

theorem updNameCell_ok (c : String) (o : Option String)
    (ho : ∀ w, o = some w → w ≠ "" ∧ validDocName w = true) :
    ∀ w, updNameCell c o = some w → w ≠ "" ∧ validDocName w = true := by
  intro w h
  unfold updNameCell at h
  split at h
  · rename_i hc
    injection h with h1
    subst h1
    exact hc
  · exact ho w h

theorem goAux_name_valid (ed : Option String) :
    ∀ (rest : List (List String)) (cur : List String) (ls : LS7)
      (prev : Option String) (v : String),
      ls.l1 = some v → v ≠ "" → validDocName v = true →
      ∀ rec ∈ goAux ed cur rest ls prev,
        validDocName rec.document_name = true := by
  intro rest
  induction rest with
  | nil =>
    intro cur ls prev v hv hne hval rec hmem
    simp only [goAux, List.mem_singleton] at hmem
    subst hmem
    exact stepRow_name_valid ed ls prev cur none v hv hne hval
  | cons n t ih =>
    intro cur ls prev v hv hne hval rec hmem
    simp only [goAux, List.mem_cons] at hmem
    rcases hmem with rfl | hmem
    · exact stepRow_name_valid ed ls prev cur (some n) v hv hne hval
    · have hls : (stepRow ed ls prev cur (some n)).ls.l1
          = updNameCell (ffillRow (toRow7 (shapeRowL cur)) ls).c1 ls.l1 := rfl
      rcases hn : updNameCell (ffillRow (toRow7 (shapeRowL cur)) ls).c1 ls.l1
        with _ | w
      · unfold updNameCell at hn
        split at hn
        · simp at hn
        · rw [hv] at hn
          simp at hn
      · have hok := updNameCell_ok (ffillRow (toRow7 (shapeRowL cur)) ls).c1
          ls.l1
          (fun w2 hw2 => by
            rw [hv] at hw2
            injection hw2 with h2
            subst h2
            exact ⟨hne, hval⟩) w hn
        exact ih _ _ _ w (by rw [hls]; exact hn) hok.1 hok.2 rec hmem

theorem stepRow_next_cases (ed : Option String) (ls : LS7)
    (prev : Option String) (cur n : List String) :
    (stepRow ed ls prev cur (some n)).next = some n ∨
      ∃ c, (stepRow ed ls prev cur (some n)).next = some (n.set 6 c) := by
  have h : (stepRow ed ls prev cur (some n)).next
      = (combineStep prev
          (if (ffillRow (toRow7 (shapeRowL cur)) ls).c6 ≠ ""
            then some (ffillRow (toRow7 (shapeRowL cur)) ls).c6 else none)
          (some n)).2 := rfl
  rw [h]
  rcases combineStep_frame prev
      (if (ffillRow (toRow7 (shapeRowL cur)) ls).c6 ≠ ""
        then some (ffillRow (toRow7 (shapeRowL cur)) ls).c6 else none)
      (some n) with h2 | ⟨c, n2, hn2, h2⟩
  · left; exact h2
  · injection hn2 with hn2
    subst hn2
    right
    exact ⟨c, h2⟩

theorem cellAt_set6 (n : List String) (c : String) :
    cellAt (n.set 6 c) 1 = cellAt n 1 := by
  unfold cellAt
  rw [List.getD_eq_getElem?_getD, List.getD_eq_getElem?_getD,
    List.getElem?_set_ne (by omega)]

theorem goAux_name_after_valid (ed : Option String) :
    ∀ (rest : List (List String)) (cur : List String) (ls : LS7)
      (prev : Option String),
      (∀ w, ls.l1 = some w → w ≠ "" ∧ validDocName w = true) →
      ∀ j i, j < i → i < rest.length + 1 →
        validDocName (cellAt ((cur :: rest).getD j []) 1) = true →
        validDocName
          ((goAux ed cur rest ls prev).getD i dfltRec).document_name = true := by
  intro rest
  induction rest with
  | nil =>
    intro cur ls prev hok j i hji hi hvalid
    simp only [List.length_nil] at hi
    omega
  | cons n t ih =>
    intro cur ls prev hok j i hji hi hvalid
    simp only [List.length_cons] at hi
    obtain ⟨i2, rfl⟩ : ∃ i2, i = i2 + 1 := ⟨i - 1, by omega⟩
    have hgo : goAux ed cur (n :: t) ls prev
        = (stepRow ed ls prev cur (some n)).record ::
          goAux ed
            (match (stepRow ed ls prev cur (some n)).next with
             | some m => m
             | none => n) t (stepRow ed ls prev cur (some n)).ls
            (stepRow ed ls prev cur (some n)).prev := rfl
    rw [hgo, List.getD_cons_succ]
    set n2 := (match (stepRow ed ls prev cur (some n)).next with
               | some m => m
               | none => n) with hn2def
    rcases j with _ | j2
    · have hvcur : validDocName (cur.getD 1 "") = true := by
        simpa [cellAt] using hvalid
      have hnecur : cur.getD 1 "" ≠ "" := validDocName_ne_empty _ hvcur
      have hcell : (ffillRow (toRow7 (shapeRowL cur)) ls).c1
          = fillCell ((shapeRowL cur).getD 1 "") ls.l1 := rfl
      have hc1 : (shapeRowL cur).getD 1 "" = cur.getD 1 "" :=
        shapeRowL_getD_le5 cur 1 (by omega)
      have hfill : fillCell (cur.getD 1 "") ls.l1 = cur.getD 1 "" := by
        unfold fillCell
        rw [if_neg hnecur]
      have hls1 : (stepRow ed ls prev cur (some n)).ls.l1
          = some (cur.getD 1 "") := by
        have hproj : (stepRow ed ls prev cur (some n)).ls.l1
            = updNameCell (ffillRow (toRow7 (shapeRowL cur)) ls).c1 ls.l1 := rfl
        rw [hproj, hcell, hc1, hfill]
        unfold updNameCell
        rw [if_pos ⟨hnecur, hvcur⟩]
      have hlen : (goAux ed n2 t (stepRow ed ls prev cur (some n)).ls
          (stepRow ed ls prev cur (some n)).prev).length = t.length + 1 :=
        goAux_length ed t n2 _ _
      have hmem : (goAux ed n2 t (stepRow ed ls prev cur (some n)).ls
            (stepRow ed ls prev cur (some n)).prev).getD i2 dfltRec
          ∈ goAux ed n2 t (stepRow ed ls prev cur (some n)).ls
            (stepRow ed ls prev cur (some n)).prev := by
        rw [List.getD_eq_getElem _ _ (by rw [hlen]; omega)]
        exact List.getElem_mem _
      exact goAux_name_valid ed t n2 _ _ (cur.getD 1 "") hls1 hnecur hvcur
        _ hmem
    · have hok2 := updNameCell_ok (ffillRow (toRow7 (shapeRowL cur)) ls).c1
        ls.l1 hok
      have hvalid2 : validDocName (cellAt ((n2 :: t).getD j2 []) 1) = true := by
        rcases j2 with _ | j3
        · simp only [List.getD_cons_zero]
          rcases stepRow_next_cases ed ls prev cur n with hcase | ⟨c, hcase⟩
          · have hn2 : n2 = n := by
              rw [hn2def, hcase]
            rw [hn2]
            simpa using hvalid
          · have hn2 : n2 = n.set 6 c := by
              rw [hn2def, hcase]
            rw [hn2, cellAt_set6]
            simpa using hvalid
        · simpa using hvalid
      exact ih n2 (stepRow ed ls prev cur (some n)).ls
        (stepRow ed ls prev cur (some n)).prev hok2 j2 i2 (by omega)
        (by omega : i2 < t.length + 1) hvalid2

/-- C6: an emitted `document_name` is never a pure digit string when some
strictly earlier processed row of the same table carried a name-valid value
in its second cell; and the spec's concrete scenario (second cell `"42"`
with `last_seen` holding `"report.pdf"`) resolves to `"report.pdf"`. -/
theorem claim6_document_name_validity :
    (∀ (tableIdx : Nat) (rows : List (List String)) (ed : Option String)
        (j i : Nat), j < i → i < (processedRows tableIdx rows).length →
        validDocName (cellAt ((processedRows tableIdx rows).getD j []) 1)
            = true →
        pureDigits
            (((processTableDF tableIdx rows ed).getD i dfltRec).document_name)
          = false) ∧
      (processTableDF 2
          [["a", "report.pdf", "1", "1", "1", "x", ""],
           ["b", "42", "1", "2", "3", "y", ""]] none).map
        (fun rec => rec.document_name) = ["report.pdf", "report.pdf"] := by
  constructor
  · intro tableIdx rows ed j i hji hi hvalid
    have hpt : processTableDF tableIdx rows ed
        = reconcileRows (processedRows tableIdx rows) ed := by
      unfold processTableDF processedRows
      split <;> rfl
    rw [hpt]
    rcases hrows : processedRows tableIdx rows with _ | ⟨r, rest⟩
    · rw [hrows] at hi
      simp at hi
    · rw [hrows] at hi hvalid
      unfold reconcileRows
      have hv := goAux_name_after_valid ed rest r initLS none
        (fun w hw => by simp [initLS] at hw) j i hji (by simpa using hi)
        hvalid
      exact validDocName_not_pureDigits _ hv
  · rfl

/-- Witness for C6 at the spec's concrete scenario. -/
theorem claim6_document_name_validity_witness :
    pureDigits (((processTableDF 2
        [["a", "report.pdf", "1", "1", "1", "x", ""],
         ["b", "42", "1", "2", "3", "y", ""]] none).getD 1
          dfltRec).document_name) = false :=
  claim6_document_name_validity.1 2
    [["a", "report.pdf", "1", "1", "1", "x", ""],
     ["b", "42", "1", "2", "3", "y", ""]] none 0 1 (by decide) (by decide)
    (by decide)

theorem shapeRowL_length (r : List String) : (shapeRowL r).length = 7 := by
  unfold shapeRowL
  rw [List.length_take, List.length_append, List.length_replicate]
  omega

/-- C7: every row is normalized to exactly seven cells (short rows padded,
long rows truncated), and a row with at least eight raw cells whose seventh
cell is date-like-without-time and whose eighth cell is time-only collapses
to its first six cells plus the merged `"<date> <h:mm>"` cell, the eighth
cell being removed before padding/truncation. -/
theorem claim7_shape_normalization :
    (∀ r : List String, (shapeRowL r).length = 7) ∧
      ∀ (r : List String) (t : String), 8 ≤ r.length →
        isDateLikeWithoutTime (r.getD 6 "") = true →
        isTimeOnly (r.getD 7 "") = true →
        extractHM (r.getD 7 "") = some t →
        shapeRowL r = r.take 6 ++ [r.getD 6 "" ++ " " ++ t] := by
  refine ⟨shapeRowL_length, ?_⟩
  intro r t h8 hdate htime hhm
  rcases r with _ | ⟨a, _ | ⟨b, _ | ⟨c, _ | ⟨d, _ | ⟨e, _ | ⟨f, _ | ⟨g,
    _ | ⟨k, rest⟩⟩⟩⟩⟩⟩⟩⟩ <;>
    try (exfalso; simp only [List.length_nil, List.length_cons] at h8; omega)
  unfold shapeRowL mergeRow8
  rw [if_pos ⟨h8, hdate, htime⟩]
  simp only [List.getD_cons_succ, List.getD_cons_zero] at hhm ⊢
  rw [hhm]
  simp [List.set, List.eraseIdx, List.take, List.length_cons]

/-- Witness for C7 on a concrete eight-cell row. -/
theorem claim7_shape_normalization_witness :
    shapeRowL ["a", "b.pdf", "1", "1", "1", "x", "10-01-2026", "14:30"]
      = ["a", "b.pdf", "1", "1", "1", "x", "10-01-2026", "14:30"].take 6 ++
        [["a", "b.pdf", "1", "1", "1", "x", "10-01-2026", "14:30"].getD 6 ""
          ++ " " ++ "14:30"] :=
  claim7_shape_normalization.2
    ["a", "b.pdf", "1", "1", "1", "x", "10-01-2026", "14:30"] "14:30"
    (by decide) (by decide) (by decide) (by decide)

theorem scanFill_length (init : Option String) :
    ∀ cs : List String, (scanFill init cs).length = cs.length := by
  intro cs
  induction cs generalizing init with
  | nil => rfl
  | cons c cs2 ih => simp [scanFill, ih]

theorem scanFill_carry (v : String) (hv : v ≠ "") :
    ∀ (cs : List String) (i : Nat), i < cs.length →
      (∀ k, k < i → cs.getD k "" = "") → cs.getD i "" = "" →
      (scanFill (some v) cs).getD i "" = v := by
  intro cs
  induction cs with
  | nil =>
    intro i hi
    simp at hi
  | cons c cs2 ih =>
    intro i hi hk hci
    rcases i with _ | i2
    · simp only [List.getD_cons_zero] at hci
      simp only [scanFill, List.getD_cons_zero]
      rw [hci]
      simp [fillCell]
    · have hc0 : c = "" := by
        have := hk 0 (by omega)
        simpa using this
      have hf : fillCell c (some v) = v := by
        rw [hc0]
        simp [fillCell]
      have hupd : updCell v (some v) = some v := by simp [updCell, hv]
      simp only [scanFill, List.getD_cons_succ, hf, hupd]
      exact ih i2 (by simp only [List.length_cons] at hi; omega)
        (fun k hk2 => by
          have := hk (k + 1) (by omega)
          simpa using this)
        (by simpa using hci)

theorem scanFill_ffill :
    ∀ (cs : List String) (init : Option String) (j i : Nat), j < i →
      i < cs.length → cs.getD i "" = "" → cs.getD j "" ≠ "" →
      (∀ k, j < k → k < i → cs.getD k "" = "") →
      (scanFill init cs).getD i "" = (scanFill init cs).getD j "" := by
  intro cs
  induction cs with
  | nil =>
    intro init j i hji hi
    simp at hi
  | cons c cs2 ih =>
    intro init j i hji hi hei hnj hbet
    simp only [List.length_cons] at hi
    obtain ⟨i2, rfl⟩ : ∃ i2, i = i2 + 1 := ⟨i - 1, by omega⟩
    rcases j with _ | j2
    · have hc : c ≠ "" := by simpa using hnj
      have hf : fillCell c init = c := by simp [fillCell, hc]
      have hupd : updCell c init = some c := by simp [updCell, hc]
      simp only [scanFill, List.getD_cons_succ, List.getD_cons_zero, hf, hupd]
      exact scanFill_carry c hc cs2 i2 (by omega)
        (fun k hk2 => by
          have := hbet (k + 1) (by omega) (by omega)
          simpa using this)
        (by simpa using hei)
    · simp only [scanFill, List.getD_cons_succ]
      exact ih _ j2 i2 (by omega) (by omega) (by simpa using hei)
        (by simpa using hnj)
        (fun k hk1 hk2 => by
          have := hbet (k + 1) (by omega) (by omega)
          simpa using this)

/-- Generic projection of the row loop onto one of the scan-independent
cell positions (`q ≤ 5`): the emitted field values are the per-position
forward-fill scan post-composed with the field's final transformation. -/
theorem goAux_proj_eq_scan {α : Type} (ed : Option String)
    (projRec : TableData → α) (proj : String → α) (lsq : LS7 → Option String)
    (q : Nat) (hq : q ≤ 5)
    (hrec : ∀ ls prev raw next,
      projRec (stepRow ed ls prev raw next).record
        = proj (fillCell (raw.getD q "") (lsq ls)))
    (hls : ∀ ls prev raw next,
      lsq (stepRow ed ls prev raw next).ls
        = updCell (fillCell (raw.getD q "") (lsq ls)) (lsq ls)) :
    ∀ (rest : List (List String)) (cur : List String) (ls : LS7)
      (prev : Option String),
      (goAux ed cur rest ls prev).map projRec
        = (scanFill (lsq ls) ((cur :: rest).map fun r => r.getD q "")).map
            proj := by
  intro rest
  induction rest with
  | nil =>
    intro cur ls prev
    simp only [goAux, List.map_cons, List.map_nil, scanFill]
    rw [hrec ls prev cur none]
  | cons n t ih =>
    intro cur ls prev
    simp only [goAux, List.map_cons, scanFill]
    have hn2 : (match (stepRow ed ls prev cur (some n)).next with
                | some m => m
                | none => n).getD q "" = n.getD q "" := by
      rcases stepRow_next_cases ed ls prev cur n with hc | ⟨c, hc⟩
      · rw [hc]
      · rw [hc, List.getD_eq_getElem?_getD, List.getD_eq_getElem?_getD,
          List.getElem?_set_ne (by omega)]
    congr 1
    · exact hrec ls prev cur (some n)
    · rw [ih]
      rw [hls ls prev cur (some n)]
      simp only [List.map_cons]
      rw [hn2]
      simp [scanFill]

theorem stepRow_record_eq (ed : Option String) (ls : LS7)
    (prev : Option String) (raw : List String)
    (next : Option (List String)) :
    (stepRow ed ls prev raw next).record
      = TableData.mk (resolveName (filledRow ls raw).c1 ls.l1)
          (toIntSafe (filledRow ls raw).c2) (toIntSafe (filledRow ls raw).c3)
          (toIntSafe (filledRow ls raw).c4)
          (stripTrailingDate (filledRow ls raw).c5)
          (seventhValue ed ls prev raw next) := rfl

theorem stepRow_proj_table (ed : Option String) (ls : LS7)
    (prev : Option String) (raw : List String) (next : Option (List String)) :
    (stepRow ed ls prev raw next).record.table_number
      = toIntSafe (fillCell (raw.getD 2 "") ls.l2) := by
  have h2 : (filledRow ls raw).c2
      = fillCell (toRow7 (shapeRowL raw)).c2 ls.l2 := rfl
  have h3 : (toRow7 (shapeRowL raw)).c2 = (shapeRowL raw).getD 2 "" := rfl
  rw [stepRow_record_eq]
  simp only []
  rw [h2, h3, shapeRowL_getD_le5 raw 2 (by omega)]

theorem stepRow_ls_l2 (ed : Option String) (ls : LS7) (prev : Option String)
    (raw : List String) (next : Option (List String)) :
    (stepRow ed ls prev raw next).ls.l2
      = updCell (fillCell (raw.getD 2 "") ls.l2) ls.l2 := by
  have h : (stepRow ed ls prev raw next).ls.l2
      = updCell (filledRow ls raw).c2 ls.l2 := rfl
  have h2 : (filledRow ls raw).c2
      = fillCell (toRow7 (shapeRowL raw)).c2 ls.l2 := rfl
  have h3 : (toRow7 (shapeRowL raw)).c2 = (shapeRowL raw).getD 2 "" := rfl
  rw [h, h2, h3, shapeRowL_getD_le5 raw 2 (by omega)]

theorem stepRow_proj_row (ed : Option String) (ls : LS7)
    (prev : Option String) (raw : List String) (next : Option (List String)) :
    (stepRow ed ls prev raw next).record.row_number
      = toIntSafe (fillCell (raw.getD 3 "") ls.l3) := by
  have h2 : (filledRow ls raw).c3
      = fillCell (toRow7 (shapeRowL raw)).c3 ls.l3 := rfl
  have h3 : (toRow7 (shapeRowL raw)).c3 = (shapeRowL raw).getD 3 "" := rfl
  rw [stepRow_record_eq]
  simp only []
  rw [h2, h3, shapeRowL_getD_le5 raw 3 (by omega)]

theorem stepRow_ls_l3 (ed : Option String) (ls : LS7) (prev : Option String)
    (raw : List String) (next : Option (List String)) :
    (stepRow ed ls prev raw next).ls.l3
      = updCell (fillCell (raw.getD 3 "") ls.l3) ls.l3 := by
  have h : (stepRow ed ls prev raw next).ls.l3
      = updCell (filledRow ls raw).c3 ls.l3 := rfl
  have h2 : (filledRow ls raw).c3
      = fillCell (toRow7 (shapeRowL raw)).c3 ls.l3 := rfl
  have h3 : (toRow7 (shapeRowL raw)).c3 = (shapeRowL raw).getD 3 "" := rfl
  rw [h, h2, h3, shapeRowL_getD_le5 raw 3 (by omega)]

theorem stepRow_proj_col (ed : Option String) (ls : LS7)
    (prev : Option String) (raw : List String) (next : Option (List String)) :
    (stepRow ed ls prev raw next).record.column_number
      = toIntSafe (fillCell (raw.getD 4 "") ls.l4) := by
  have h2 : (filledRow ls raw).c4
      = fillCell (toRow7 (shapeRowL raw)).c4 ls.l4 := rfl
  have h3 : (toRow7 (shapeRowL raw)).c4 = (shapeRowL raw).getD 4 "" := rfl
  rw [stepRow_record_eq]
  simp only []
  rw [h2, h3, shapeRowL_getD_le5 raw 4 (by omega)]

theorem stepRow_ls_l4 (ed : Option String) (ls : LS7) (prev : Option String)
    (raw : List String) (next : Option (List String)) :
    (stepRow ed ls prev raw next).ls.l4
      = updCell (fillCell (raw.getD 4 "") ls.l4) ls.l4 := by
  have h : (stepRow ed ls prev raw next).ls.l4
      = updCell (filledRow ls raw).c4 ls.l4 := rfl
  have h2 : (filledRow ls raw).c4
      = fillCell (toRow7 (shapeRowL raw)).c4 ls.l4 := rfl
  have h3 : (toRow7 (shapeRowL raw)).c4 = (shapeRowL raw).getD 4 "" := rfl
  rw [h, h2, h3, shapeRowL_getD_le5 raw 4 (by omega)]

theorem stepRow_proj_content (ed : Option String) (ls : LS7)
    (prev : Option String) (raw : List String) (next : Option (List String)) :
    (stepRow ed ls prev raw next).record.cell_content
      = stripTrailingDate (fillCell (raw.getD 5 "") ls.l5) := by
  have h : (stepRow ed ls prev raw next).record.cell_content
      = stripTrailingDate (filledRow ls raw).c5 := rfl
  have h2 : (filledRow ls raw).c5
      = fillCell (toRow7 (shapeRowL raw)).c5 ls.l5 := rfl
  have h3 : (toRow7 (shapeRowL raw)).c5 = (shapeRowL raw).getD 5 "" := rfl
  rw [h, h2, h3, shapeRowL_getD_le5 raw 5 (by omega)]

theorem stepRow_ls_l5 (ed : Option String) (ls : LS7) (prev : Option String)
    (raw : List String) (next : Option (List String)) :
    (stepRow ed ls prev raw next).ls.l5
      = updCell (fillCell (raw.getD 5 "") ls.l5) ls.l5 := by
  have h : (stepRow ed ls prev raw next).ls.l5
      = updCell (filledRow ls raw).c5 ls.l5 := rfl
  have h2 : (filledRow ls raw).c5
      = fillCell (toRow7 (shapeRowL raw)).c5 ls.l5 := rfl
  have h3 : (toRow7 (shapeRowL raw)).c5 = (shapeRowL raw).getD 5 "" := rfl
  rw [h, h2, h3, shapeRowL_getD_le5 raw 5 (by omega)]

theorem forward_fill_generic {α : Type} (tableIdx : Nat)
    (rows : List (List String)) (ed : Option String) (j i : Nat)
    (projRec : TableData → α) (proj : String → α) (lsq : LS7 → Option String)
    (q : Nat) (hq : q ≤ 5) (hinit : lsq initLS = none)
    (hrec : ∀ ls prev raw next,
      projRec (stepRow ed ls prev raw next).record
        = proj (fillCell (raw.getD q "") (lsq ls)))
    (hls : ∀ ls prev raw next,
      lsq (stepRow ed ls prev raw next).ls
        = updCell (fillCell (raw.getD q "") (lsq ls)) (lsq ls))
    (hyp : ffillHyp (processedRows tableIdx rows) q j i) :
    projRec ((processTableDF tableIdx rows ed).getD i dfltRec)
      = projRec ((processTableDF tableIdx rows ed).getD j dfltRec) := by
  obtain ⟨hji, hi, hei, hnj, hbet⟩ := hyp
  have hpt : processTableDF tableIdx rows ed
      = reconcileRows (processedRows tableIdx rows) ed := by
    unfold processTableDF processedRows
    split <;> rfl
  rw [hpt]
  rcases hrows : processedRows tableIdx rows with _ | ⟨r, rest⟩
  · rw [hrows] at hi
    simp at hi
  · rw [hrows] at hi hei hnj hbet
    unfold reconcileRows
    have hmap := goAux_proj_eq_scan ed projRec proj lsq q hq hrec hls rest r
      initLS none
    rw [hinit] at hmap
    have hreclen : (goAux ed r rest initLS none).length = rest.length + 1 :=
      goAux_length ed rest r initLS none
    have hilen : i < rest.length + 1 := by
      simp only [List.length_cons] at hi
      omega
    have hcells : ∀ k,
        ((r :: rest).map fun r2 => r2.getD q "").getD k ""
          = cellAt ((r :: rest).getD k []) q := by
      intro k
      have hmapD := List.getD_map (r :: rest) ([] : List String)
        (f := fun r2 => r2.getD q "") (n := k)
      simpa [cellAt] using hmapD
    have hslen : (scanFill none ((r :: rest).map fun r2 => r2.getD q "")).length
        = rest.length + 1 := by
      rw [scanFill_length]
      simp
    have hscan := scanFill_ffill ((r :: rest).map fun r2 => r2.getD q "")
      none j i hji (by simp only [List.length_map, List.length_cons]; omega)
      (by rw [hcells]; exact hei) (by rw [hcells]; exact hnj)
      (fun k hk1 hk2 => by rw [hcells]; exact hbet k hk1 hk2)
    rw [List.getD_eq_getElem _ _ (by rw [hreclen]; omega : i < _),
      List.getD_eq_getElem _ _ (by rw [hreclen]; omega : j < _)]
    have key : ∀ k, k < rest.length + 1 →
        ∀ (hg : k < (goAux ed r rest initLS none).length)
          (hs : k < (scanFill none
            ((r :: rest).map fun r2 => r2.getD q "")).length),
          projRec ((goAux ed r rest initLS none)[k])
            = proj ((scanFill none
                ((r :: rest).map fun r2 => r2.getD q ""))[k]) := by
      intro k hk hg hs
      have hmk : k < ((goAux ed r rest initLS none).map projRec).length := by
        rw [List.length_map, hreclen]
        omega
      have h1 := List.getElem_of_eq hmap hmk
      rw [List.getElem_map, List.getElem_map] at h1
      exact h1
    rw [key i hilen _ (by rw [hslen]; omega),
      key j (by omega) _ (by rw [hslen]; omega)]
    apply congrArg proj
    rw [← List.getD_eq_getElem _ "" , ← List.getD_eq_getElem _ ""]
    exact hscan

/-- C10 (frame property of the look-ahead write-back): processing one row
either leaves the upcoming row sequence untouched or replaces exactly the
seventh cell (index 6) of the immediately next row by the combined value;
rows further ahead are only ever reached by later steps, and earlier rows
and other tables are never revisited by construction of `goAux` and
`parseTablesAux`. -/
theorem claim10_lookahead_frame :
    ∀ (ed : Option String) (ls : LS7) (prev : Option String)
      (raw : List String) (next : Option (List String)),
      (stepRow ed ls prev raw next).next = next ∨
        ∃ c n, next = some n ∧
          (stepRow ed ls prev raw next).next = some (n.set 6 c) := by
  intro ed ls prev raw next
  exact combineStep_frame prev _ next

/-- C3 (original, refuted at position 2 of the 1-indexed field range the
claim quantifies over): in a second table whose first processed row carries
the all-digit document-name candidate "42" (non-empty, so a forward-fill
source under the claim's hypotheses) and whose second row has an empty
name cell, the forward-fill hypotheses hold at that position, yet the
emitted document names are "42" for the first row and "" for the second:
the name-validity gating keeps the all-digit candidate out of the carry
state, so the resolved values differ. -/
theorem claim3_counterexample :
    ffillHyp (processedRows 2
      [["a", "42", "1", "1", "1", "x", ""],
       ["", "", "", "", "", "", ""]]) 1 0 1 ∧
    (processTableDF 2
      [["a", "42", "1", "1", "1", "x", ""],
       ["", "", "", "", "", "", ""]] none).map TableData.document_name
      = ["42", ""] := by
  refine ⟨⟨by decide, by decide, by decide, by decide,
    fun k hk1 hk2 => absurd hk2 (by omega)⟩, by decide⟩

/-- C3 (amended): forward-fill correctness holds at the four
scan-independent positions 3 to 6 (1-indexed: the table-number,
row-number, column-number and cell-content fields).  For every table,
document-level date and pair of processed rows j < i, if row i's raw cell
at the position is empty, row j's raw cell there is non-empty, and every
row strictly between them has an empty raw cell at that position, then the
emitted records of rows i and j agree on the corresponding field.  At
position 2 the document-name validity gating breaks the original claim,
and at position 7 the three-way date reconciliation does; position 1 is
consumed but never emitted. -/
theorem claim3_amended_forward_fill (tableIdx : Nat)
    (rows : List (List String)) (ed : Option String) (j i : Nat) :
    (ffillHyp (processedRows tableIdx rows) 2 j i →
      ((processTableDF tableIdx rows ed).getD i dfltRec).table_number
        = ((processTableDF tableIdx rows ed).getD j dfltRec).table_number) ∧
    (ffillHyp (processedRows tableIdx rows) 3 j i →
      ((processTableDF tableIdx rows ed).getD i dfltRec).row_number
        = ((processTableDF tableIdx rows ed).getD j dfltRec).row_number) ∧
    (ffillHyp (processedRows tableIdx rows) 4 j i →
      ((processTableDF tableIdx rows ed).getD i dfltRec).column_number
        = ((processTableDF tableIdx rows ed).getD j dfltRec).column_number) ∧
    (ffillHyp (processedRows tableIdx rows) 5 j i →
      ((processTableDF tableIdx rows ed).getD i dfltRec).cell_content
        = ((processTableDF tableIdx rows ed).getD j dfltRec).cell_content) := by
  refine ⟨fun h => ?_, fun h => ?_, fun h => ?_, fun h => ?_⟩
  · exact forward_fill_generic tableIdx rows ed j i TableData.table_number
      toIntSafe LS7.l2 2 (by omega) rfl (stepRow_proj_table ed)
      (stepRow_ls_l2 ed) h
  · exact forward_fill_generic tableIdx rows ed j i TableData.row_number
      toIntSafe LS7.l3 3 (by omega) rfl (stepRow_proj_row ed)
      (stepRow_ls_l3 ed) h
  · exact forward_fill_generic tableIdx rows ed j i TableData.column_number
      toIntSafe LS7.l4 4 (by omega) rfl (stepRow_proj_col ed)
      (stepRow_ls_l4 ed) h
  · exact forward_fill_generic tableIdx rows ed j i TableData.cell_content
      stripTrailingDate LS7.l5 5 (by omega) rfl (stepRow_proj_content ed)
      (stepRow_ls_l5 ed) h

/-- The amended forward-fill theorem applied at a concrete two-row second
table: the hypotheses hold at cell position 2 (the table-number field)
with j = 0 and i = 1, and the two emitted table numbers coincide. -/
theorem claim3_amended_forward_fill_witness :
    ffillHyp (processedRows 2
      [["a", "b.pdf", "5", "6", "7", "x", ""],
       ["", "", "", "", "", "", ""]]) 2 0 1 ∧
    ((processTableDF 2
      [["a", "b.pdf", "5", "6", "7", "x", ""],
       ["", "", "", "", "", "", ""]] none).getD 1 dfltRec).table_number
      = ((processTableDF 2
      [["a", "b.pdf", "5", "6", "7", "x", ""],
       ["", "", "", "", "", "", ""]] none).getD 0 dfltRec).table_number := by
  have hyp : ffillHyp (processedRows 2
      [["a", "b.pdf", "5", "6", "7", "x", ""],
       ["", "", "", "", "", "", ""]]) 2 0 1 :=
    ⟨by decide, by decide, by decide, by decide,
      fun k hk1 hk2 => absurd hk2 (by omega)⟩
  exact ⟨hyp, (claim3_amended_forward_fill 2
    [["a", "b.pdf", "5", "6", "7", "x", ""],
     ["", "", "", "", "", "", ""]] none 0 1).1 hyp⟩

theorem mergeRow8_eq_self (r : List String) (h : r.length ≤ 7) :
    mergeRow8 r = r := by
  unfold mergeRow8
  rw [if_neg (fun hand => absurd hand.1 (by omega))]

theorem shapeRowL_eq_self (r : List String) (h : r.length = 7) :
    shapeRowL r = r := by
  unfold shapeRowL
  rw [mergeRow8_eq_self r (Nat.le_of_eq h), h]
  simp [List.take_of_length_le, Nat.le_of_eq h]

theorem rawSeventh_filled (ls : LS7) (r : List String) (hlen : r.length = 7)
    (hne : r.getD 6 "" ≠ "") :
    rawSeventh (filledRow ls r) = some (r.getD 6 "") := by
  have e1 : (filledRow ls r).c6 = fillCell (toRow7 (shapeRowL r)).c6 ls.l6 := rfl
  have e2 : (toRow7 (shapeRowL r)).c6 = (shapeRowL r).getD 6 "" := rfl
  have hc6 : (filledRow ls r).c6 = r.getD 6 "" := by
    rw [e1, e2, shapeRowL_eq_self r hlen]
    unfold fillCell
    rw [if_neg hne]
  unfold rawSeventh
  rw [hc6, if_pos hne]

theorem hmSplit_digit2_dash (a b : Char) (xs : List Char)
    (hb : b.isDigit = true) : hmSplit (a :: b :: '-' :: xs) = none := by
  have hb' : ¬(b = ':') := by
    intro he
    rw [he] at hb
    exact absurd hb (by decide)
  match xs with
  | [] => rfl
  | [x] =>
    unfold hmSplit
    simp [hb']
  | x :: y :: rest =>
    unfold hmSplit
    simp [hb']

theorem isTimeOnly_false_dd_dash (s : String) (a b : Char) (xs : List Char)
    (hdata : s.data = a :: b :: '-' :: xs) (has : isPySpace a = false)
    (hb : b.isDigit = true) : isTimeOnly s = false := by
  have hne : s ≠ "" := by
    intro h0
    rw [h0] at hdata
    have h1 : ([] : List Char) = a :: b :: '-' :: xs := hdata
    exact absurd h1 (by simp)
  unfold isTimeOnly
  rw [if_neg hne, hdata]
  have hdw : (a :: b :: '-' :: xs).dropWhile isPySpace = a :: b :: '-' :: xs := by
    simp [List.dropWhile_cons, has]
  rw [hdw, hmSplit_digit2_dash a b xs hb]

theorem hmSplit_none_of_no_colon (cs : List Char) (h : ':' ∉ cs) :
    hmSplit cs = none := by
  match cs with
  | [] => rfl
  | [a] => rfl
  | [a, b] => rfl
  | [a, b, c] => rfl
  | [a, b, c, d] =>
    have hb : ¬(b = ':') := by
      intro he
      subst he
      exact h (by simp)
    unfold hmSplit
    simp [hb]
  | a :: b :: c :: d :: e :: rest =>
    have hb : ¬(b = ':') := by
      intro he
      subst he
      exact h (by simp)
    have hc : ¬(c = ':') := by
      intro he
      subst he
      exact h (by simp)
    unfold hmSplit
    simp [hb, hc]

theorem isTimeOnly_false_of_no_colon (s : String)
    (h : s.data.contains ':' = false) : isTimeOnly s = false := by
  have h' : ':' ∉ s.data := by simpa using h
  have h2 : ':' ∉ s.data.dropWhile isPySpace :=
    fun hm => h' ((List.dropWhile_sublist isPySpace).subset hm)
  unfold isTimeOnly
  split
  · rfl
  · rw [hmSplit_none_of_no_colon _ h2]

theorem trimChars_eq_of_ends (c0 c1 : Char) (cs : List Char)
    (h0 : isPySpace c0 = false) (h1 : isPySpace c1 = false) :
    trimChars (c0 :: (cs ++ [c1])) = c0 :: (cs ++ [c1]) := by
  unfold trimChars
  have hd : (c0 :: (cs ++ [c1])).dropWhile isPySpace = c0 :: (cs ++ [c1]) := by
    simp [List.dropWhile_cons, h0]
  rw [hd]
  have hrev : (c0 :: (cs ++ [c1])).reverse = c1 :: (cs.reverse ++ [c0]) := by
    simp
  rw [hrev]
  have hd2 : (c1 :: (cs.reverse ++ [c0])).dropWhile isPySpace
      = c1 :: (cs.reverse ++ [c0]) := by
    simp [List.dropWhile_cons, h1]
  rw [hd2, ← hrev, List.reverse_reverse]

/-- The combined `"<date-part> <time>"` string built by the cross-row
reconciliation: it is non-empty, neither time-only nor date-like without
time, and invariant under stripping. -/
theorem combined_facts (p t : String)
    (hdp : isDatePartShape (datePart p) = true)
    (hts : (∃ a b c d : Char, t.data = [a, b, ':', c, d] ∧ a.isDigit ∧
        b.isDigit ∧ c.isDigit ∧ d.isDigit) ∨
      (∃ a c d : Char, t.data = [a, ':', c, d] ∧ a.isDigit ∧ c.isDigit ∧
        d.isDigit)) :
    (datePart p ++ " " ++ t) ≠ "" ∧
    isTimeOnly (datePart p ++ " " ++ t) = false ∧
    isDateLikeWithoutTime (datePart p ++ " " ++ t) = false ∧
    strip (datePart p ++ " " ++ t) = datePart p ++ " " ++ t := by
  obtain ⟨a, b, c, d2, rest, hdata, ha, hb, hc, hd2, hrest⟩ :=
    isDatePartShape_spec _ hdp
  have has : isPySpace a = false := by
    rcases ha with h1 | h1
    · exact isDigit_isPySpace_false a h1
    · subst h1; decide
  obtain ⟨tlast, tinit, htl⟩ : ∃ tl ti, t.data = ti ++ [tl] ∧ tl.isDigit = true := by
    rcases hts with ⟨x1, x2, x3, x4, htd, hx1, hx2, hx3, hx4⟩ |
        ⟨x1, x3, x4, htd, hx1, hx3, hx4⟩
    · exact ⟨x4, [x1, x2, ':', x3], by rw [htd]; rfl, hx4⟩
    · exact ⟨x4, [x1, ':', x3], by rw [htd]; rfl, hx4⟩
  obtain ⟨htleq, htldig⟩ := htl
  have hcombdata : (datePart p ++ " " ++ t).data
      = a :: b :: '-' :: c :: d2 :: '-' :: (rest ++ ' ' :: t.data) := by
    simp [String.data_append, hdata]
  have hne : (datePart p ++ " " ++ t) ≠ "" := by
    intro h0
    rw [h0] at hcombdata
    have h1 : ([] : List Char)
        = a :: b :: '-' :: c :: d2 :: '-' :: (rest ++ ' ' :: t.data) :=
      hcombdata
    exact absurd h1 (by simp)
  refine ⟨hne, ?_, ?_, ?_⟩
  · exact isTimeOnly_false_dd_dash _ a b _ hcombdata has hb
  · have hmem : ':' ∈ (datePart p ++ " " ++ t).data := by
      rw [hcombdata]
      rcases hts with ⟨x1, x2, x3, x4, htd, -⟩ | ⟨x1, x3, x4, htd, -⟩ <;>
        rw [htd] <;> simp
    have hcont : (datePart p ++ " " ++ t).data.contains ':' = true :=
      List.elem_eq_true_of_mem hmem
    unfold isDateLikeWithoutTime
    rw [if_neg hne, hcont]
    simp
  · unfold strip
    have hsplit2 : (datePart p ++ " " ++ t).data
        = a :: (([b, '-', c, d2, '-'] ++ rest ++ ' ' :: tinit) ++ [tlast]) := by
      rw [hcombdata, htleq]
      simp
    rw [hsplit2, trimChars_eq_of_ends a tlast _ has
      (isDigit_isPySpace_false tlast htldig), ← hsplit2]

/-- The seventh-column resolution of a row carrying an already combined
(date and time) value: neither combine case applies, and plain
normalization re-parses the combined string. -/
theorem seventhValue_combined (ed : Option String) (ls2 : LS7)
    (prev2 : Option String) (n2 : List String) (next2 : Option (List String))
    (v : String) (hlen : n2.length = 7) (hg : n2.getD 6 "" = v)
    (hvne : v ≠ "") (hto : isTimeOnly v = false)
    (hdl : isDateLikeWithoutTime v = false) (hstrip : strip v = v) :
    seventhValue ed ls2 prev2 n2 next2 = parsePdfDate v := by
  have hrs : rawSeventh (filledRow ls2 n2) = some v := by
    rw [rawSeventh_filled ls2 n2 hlen (by rw [hg]; exact hvne), hg]
  have hnot1 : ¬(isTimeOnly v = true ∧ prevTruthy prev2 = true) := by
    intro hand
    rw [hto] at hand
    exact absurd hand.1 (by decide)
  have hcs : combineStep prev2 (some v) next2 = (none, next2) := by
    cases next2 with
    | none =>
      have hred : combineStep prev2 (some v) none
          = (if isTimeOnly v = true ∧ prevTruthy prev2 = true
              then (combineWithPrev prev2 v, none)
              else if isDateLikeWithoutTime v = true
                  ∧ (none : Option (List String)).isSome = true
                then (none, none)
                else (none, none)) := rfl
      rw [hred, if_neg hnot1,
        if_neg (fun hand => absurd hand.2 (by decide))]
    | some n =>
      have hred : combineStep prev2 (some v) (some n)
          = (if isTimeOnly v = true ∧ prevTruthy prev2 = true
              then (combineWithPrev prev2 v, some n)
              else if isDateLikeWithoutTime v = true
                  ∧ (some n : Option (List String)).isSome = true
                then ((combineWithNext v n).1, some (combineWithNext v n).2)
                else (none, some n)) := rfl
      rw [hred, if_neg hnot1,
        if_neg (fun hand => by
          rw [hdl] at hand
          exact absurd hand.1 (by decide))]
  unfold seventhValue
  rw [hrs, hcs]
  show normalizeCombineO (some v) ed = parsePdfDate v
  have hnc : normalizeCombineO (some v) ed = normalizeDateField v ed := rfl
  rw [hnc]
  unfold normalizeDateField
  rw [if_neg hvne, hstrip, hto]
  rw [if_neg (by decide : ¬(false = true))]

/-- Processing a row whose raw seventh value is a parseable bare date with
a time-only seventh value in the materialized next row: the emitted
`extracted_date` is the combined value, and the combined value is written
back into cell 6 of the next row. -/
theorem stepRow_combineB (ed : Option String) (ls : LS7) (prev : Option String)
    (r1 r2 : List String) (p t : String)
    (h1len : r1.length = 7)
    (hd : isDateLikeWithoutTime (r1.getD 6 "") = true)
    (hp : parsePdfDate (r1.getD 6 "") = some p)
    (h2len : r2.length = 7)
    (ht : isTimeOnly (r2.getD 6 "") = true)
    (het : extractHM (r2.getD 6 "") = some t) :
    (stepRow ed ls prev r1 (some r2)).record.extracted_date
      = some (datePart p ++ " " ++ t) ∧
    (stepRow ed ls prev r1 (some r2)).next
      = some (r2.set 6 (datePart p ++ " " ++ t)) := by
  have hd' := hd
  unfold isDateLikeWithoutTime at hd'
  split at hd'
  · exact absurd hd' (by decide)
  · rename_i hne
    split at hd'
    · exact absurd hd' (by decide)
    · rename_i hcont
      have hnc : (r1.getD 6 "").data.contains ':' = false := by
        simpa using hcont
      have hto1 : isTimeOnly (r1.getD 6 "") = false :=
        isTimeOnly_false_of_no_colon _ hnc
      have hrs : rawSeventh (filledRow ls r1) = some (r1.getD 6 "") :=
        rawSeventh_filled ls r1 h1len hne
      have hcwn : combineWithNext (r1.getD 6 "") r2
          = (some (datePart p ++ " " ++ t),
             r2.set 6 (datePart p ++ " " ++ t)) := by
        unfold combineWithNext
        rw [if_pos ⟨by omega, ht⟩, hp, het]
      have hnot1 : ¬(isTimeOnly (r1.getD 6 "") = true
          ∧ prevTruthy prev = true) := by
        intro hand
        rw [hto1] at hand
        exact absurd hand.1 (by decide)
      have hred : combineStep prev (some (r1.getD 6 "")) (some r2)
          = (if isTimeOnly (r1.getD 6 "") = true ∧ prevTruthy prev = true
              then (combineWithPrev prev (r1.getD 6 ""), some r2)
              else if isDateLikeWithoutTime (r1.getD 6 "") = true
                  ∧ (some r2 : Option (List String)).isSome = true
                then ((combineWithNext (r1.getD 6 "") r2).1,
                      some (combineWithNext (r1.getD 6 "") r2).2)
                else (none, some r2)) := rfl
      have hcs1 : combineStep prev (some (r1.getD 6 "")) (some r2)
          = ((combineWithNext (r1.getD 6 "") r2).1,
             some (combineWithNext (r1.getD 6 "") r2).2) := by
        rw [hred, if_neg hnot1, if_pos ⟨hd, rfl⟩]
      have hfst : (combineStep prev (some (r1.getD 6 "")) (some r2)).1
          = some (datePart p ++ " " ++ t) := by
        rw [hcs1, hcwn]
      constructor
      · rw [stepRow_record_eq]
        simp only []
        unfold seventhValue
        rw [hrs, hfst]
      · have hnx : (stepRow ed ls prev r1 (some r2)).next
            = (combineStep prev (rawSeventh (filledRow ls r1)) (some r2)).2 :=
          rfl
        rw [hnx, hrs, hcs1, hcwn]

theorem goAux_head_record (ed : Option String) (cur : List String)
    (rest : List (List String)) (ls2 : LS7) (prev2 : Option String) :
    ∃ nx, (goAux ed cur rest ls2 prev2).getD 0 dfltRec
      = (stepRow ed ls2 prev2 cur nx).record := by
  cases rest with
  | nil => exact ⟨none, by simp [goAux]⟩
  | cons m t2 => exact ⟨some m, by simp [goAux]⟩

/-- C5 (amended): when a processed row's raw seventh value is date-like
without time and additionally parses, and the next materialized row's raw
seventh value is time-only with extracted time t, then the first row's
emitted `extracted_date` is the combined `"<date-part> <time>"` string and
the combined string is written back into the next row's cell 6, so the
second row's emitted `extracted_date` is the re-parse of the combined
string (its normalization, typically equal to it, for one-digit-hour
times with the hour zero-padded) rather than an independently derived
value.  The original claim's "both rows resolve to the combined value"
fails when the date-like value does not actually parse. -/
theorem claim5_amended_split_merge (ed : Option String) (ls : LS7)
    (prev : Option String) (r1 r2 : List String) (rest : List (List String))
    (p t : String)
    (h1len : r1.length = 7)
    (hd : isDateLikeWithoutTime (r1.getD 6 "") = true)
    (hp : parsePdfDate (r1.getD 6 "") = some p)
    (h2len : r2.length = 7)
    (ht : isTimeOnly (r2.getD 6 "") = true)
    (het : extractHM (r2.getD 6 "") = some t) :
    ((goAux ed r1 (r2 :: rest) ls prev).getD 0 dfltRec).extracted_date
      = some (datePart p ++ " " ++ t) ∧
    ((goAux ed r1 (r2 :: rest) ls prev).getD 1 dfltRec).extracted_date
      = parsePdfDate (datePart p ++ " " ++ t) := by
  obtain ⟨hrec1, hnext⟩ :=
    stepRow_combineB ed ls prev r1 r2 p t h1len hd hp h2len ht het
  obtain ⟨hvne, hto, hdl, hstrip⟩ := combined_facts p t
    (parsePdfDate_datePart_shape _ p hp) (extractHM_shape _ t het)
  simp only [goAux]
  have hn2 : (match (stepRow ed ls prev r1 (some r2)).next with
      | some m => m
      | none => r2) = r2.set 6 (datePart p ++ " " ++ t) := by
    rw [hnext]
  rw [hn2]
  constructor
  · simpa using hrec1
  · simp only [List.getD_cons_succ]
    obtain ⟨nx, hhead⟩ := goAux_head_record ed
      (r2.set 6 (datePart p ++ " " ++ t)) rest
      (stepRow ed ls prev r1 (some r2)).ls
      (stepRow ed ls prev r1 (some r2)).prev
    rw [hhead, stepRow_record_eq]
    simp only []
    exact seventhValue_combined _ _ _ _ _ _
      (by rw [List.length_set, h2len])
      (by
        rw [List.getD_eq_getElem?_getD, List.getElem?_set_self (by omega)]
        simp)
      hvne hto hdl hstrip

/-- C5 (counterexample to the original claim): "99-99-2026" is date-like
without time by the code's test and the next row's "14:30" is time-only,
yet "99-99-2026" fails to parse, so no combination happens: the first
row's `extracted_date` is absent and the second row's resolves to the bare
time, not to the combined value "99-99-2026 14:30". -/
theorem claim5_counterexample :
    isDateLikeWithoutTime "99-99-2026" = true ∧
    isTimeOnly "14:30" = true ∧
    (processTableDF 2
      [["a", "b.pdf", "1", "1", "1", "x", "99-99-2026"],
       ["", "", "", "", "", "", "14:30"]] none).map TableData.extracted_date
      = [none, some "14:30"] := by
  exact ⟨by decide, by decide, by decide⟩

/-- The amended C5 theorem applied at the specification's round-trip
scenario: a row ending in "10-01-2026" followed by a row whose only
non-empty cell is "14:30"; both resolved dates are "10-01-2026 14:30". -/
theorem claim5_amended_split_merge_witness :
    ((goAux none ["a", "b", "1", "1", "1", "content", "10-01-2026"]
        [["", "", "", "", "", "", "14:30"]] initLS none).getD 0
        dfltRec).extracted_date
      = some "10-01-2026 14:30" ∧
    ((goAux none ["a", "b", "1", "1", "1", "content", "10-01-2026"]
        [["", "", "", "", "", "", "14:30"]] initLS none).getD 1
        dfltRec).extracted_date
      = some "10-01-2026 14:30" := by
  have h := claim5_amended_split_merge none initLS none
    ["a", "b", "1", "1", "1", "content", "10-01-2026"]
    ["", "", "", "", "", "", "14:30"] [] "10-01-2026 00:00" "14:30"
    (by decide) (by decide) (by decide) (by decide) (by decide) (by decide)
  exact ⟨h.1.trans (by decide), h.2.trans (by decide)⟩

end PdfParser
